import Mathlib

/-!
Shallow embedding of the fetscraper repository (src/src/*.py) and proofs
about the claims of its specification.  Strings are modelled as `List Char`
(ASCII-faithful for the character classes the code uses); Python exceptions
are modelled as `Option`/`Except`; mutable state is passed explicitly.
-/

namespace FetScraper

/-! ## Character classes (utils.py helpers) -/

/-- ASCII decimal digit, the class matched by `\d` / `str.isdigit` on the
inputs this code handles. -/
def isDigitChar (c : Char) : Bool :=
  48 ≤ c.toNat && c.toNat ≤ 57

/-- Python whitespace (`str.strip()` / regex `\s`): ASCII space family,
the `\x1c`-`\x1f` separators, NEL, NBSP and the Unicode space block. -/
def isPySpace (c : Char) : Bool :=
  let n := c.toNat
  n == 9 || n == 10 || n == 11 || n == 12 || n == 13 ||
  n == 28 || n == 29 || n == 30 || n == 31 || n == 32 ||
  n == 133 || n == 160 || n == 5760 || (8192 ≤ n && n ≤ 8202) ||
  n == 8232 || n == 8233 || n == 8239 || n == 8287 || n == 12288

/-- `str.strip()`: drop Python whitespace from both ends. -/
def pyStrip (s : List Char) : List Char :=
  ((s.dropWhile isPySpace).reverse.dropWhile isPySpace).reverse

/-- `str.isdigit()` (ASCII): non-empty and all digits. -/
def pyIsDigit (s : List Char) : Bool :=
  !s.isEmpty && s.all isDigitChar

/-- Numeric value of a digit string (most-significant first). -/
def digitsToNat (s : List Char) : Nat :=
  s.foldl (fun n c => n * 10 + (c.toNat - 48)) 0

/-- Digit-run scanner for Python `int`: digits with single underscores
allowed between digits (`int("1_0") == 10`).  The flag records that the
previous character was an underscore, which must be followed by a digit. -/
def digitsCore : Nat → Bool → List Char → Option Nat
  | acc, afterUnd, [] => if afterUnd then none else some acc
  | acc, afterUnd, c :: rest =>
    if isDigitChar c then digitsCore (acc * 10 + (c.toNat - 48)) false rest
    else if c = '_' then
      if afterUnd then none else digitsCore acc true rest
    else none

/-- Unsigned part of Python `int(str)`: must start with a digit. -/
def parseDigitsU : List Char → Option Nat
  | [] => none
  | c :: rest => if isDigitChar c then digitsCore (c.toNat - 48) false rest else none

/-- Python `int(str)`: strip whitespace, optional single sign, digit run.
`none` models `ValueError`. -/
def pyInt? (s : List Char) : Option Int :=
  match pyStrip s with
  | [] => none
  | c :: rest =>
    if c = '+' then (parseDigitsU rest).map (fun n => (n : Int))
    else if c = '-' then (parseDigitsU rest).map (fun n => -(n : Int))
    else (parseDigitsU (c :: rest)).map (fun n => (n : Int))

/-- Python `str.split(sep)` for a one-character separator. -/
def splitOnChar (sep : Char) : List Char → List (List Char)
  | [] => [[]]
  | c :: rest =>
    if c = sep then [] :: splitOnChar sep rest
    else
      match splitOnChar sep rest with
      | g :: gs => (c :: g) :: gs
      | [] => [[c]]

/-! ## utils.parse_duration -/

/-- One optional regex group `(?:(\d+)u)?` of the shorthand pattern: a
maximal digit run immediately followed by the unit letter, else no
consumption. -/
def unitNum (u : Char) (t : List Char) : Option (Nat × List Char) :=
  let ds := t.takeWhile isDigitChar
  match t.dropWhile isDigitChar with
  | c :: rest2 => if !ds.isEmpty && c = u then some (digitsToNat ds, rest2) else none
  | [] => none

/-- `re.fullmatch(r"(?:(\d+)h)?(?:(\d+)m)?(?:(\d+)s)?", t)` with
`any(match.groups())`: the whole string is consumed and at least one
group matched. -/
def shorthand? (t : List Char) : Option Int :=
  let (h, t1, mh) :=
    match unitNum 'h' t with
    | some (n, r) => (n, r, true)
    | none => (0, t, false)
  let (m, t2, mm) :=
    match unitNum 'm' t1 with
    | some (n, r) => (n, r, true)
    | none => (0, t1, false)
  let (s, t3, ms) :=
    match unitNum 's' t2 with
    | some (n, r) => (n, r, true)
    | none => (0, t2, false)
  if t3.isEmpty && (mh || mm || ms) then
    some ((3600 * h + 60 * m + s : Nat) : Int)
  else none

/-- utils.parse_duration: empty input returns 0 without raising; then a
stripped copy is tried as plain digits, as `NhNmNs` shorthand, and as a
2- or 3-field colon form whose fields go through Python `int`; anything
else raises `ValueError` (modelled as `none`). -/
def parse_duration (s : List Char) : Option Int :=
  if s.isEmpty then some 0
  else
    let t := pyStrip s
    if pyIsDigit t then some ((digitsToNat t : Nat) : Int)
    else
      match shorthand? t with
      | some v => some v
      | none =>
        match splitOnChar ':' t with
        | [a, b] =>
          match pyInt? a, pyInt? b with
          | some m, some sec => some (60 * m + sec)
          | _, _ => none
        | [a, b, c] =>
          match pyInt? a, pyInt? b, pyInt? c with
          | some h, some m, some sec => some (3600 * h + 60 * m + sec)
          | _, _, _ => none
        | _ => none

/-! ## utils.format_duration -/

/-- Decimal digits of a natural number. -/
def natDigits (n : Nat) : List Char :=
  Nat.toDigits 10 n

/-- Python `str(i)` for an integer. -/
def intDigits (i : Int) : List Char :=
  if i < 0 then '-' :: natDigits i.natAbs else natDigits i.toNat

/-- Python `f"{i:02d}"`: zero-pad to width two. -/
def pad2 (i : Int) : List Char :=
  if 0 ≤ i ∧ i < 10 then '0' :: natDigits i.toNat else intDigits i

/-- utils.format_duration: seconds below 60 render as `Ns`, then `M:SS`,
then `H:MM:SS` (Python `divmod` by 60, i.e. Euclidean for the positive
divisor). -/
def format_duration (seconds : Int) : List Char :=
  if seconds < 60 then intDigits seconds ++ ['s']
  else
    let minutes := seconds.ediv 60
    let secs := seconds.emod 60
    if minutes < 60 then intDigits minutes ++ ':' :: pad2 secs
    else
      let hours := minutes.ediv 60
      let mins := minutes.emod 60
      intDigits hours ++ ':' :: pad2 mins ++ ':' :: pad2 secs

/-! ## utils.sanitize_filename -/

/-- One of `<>:"/\|?*`. -/
def isInvalidFsChar (c : Char) : Bool :=
  c == '<' || c == '>' || c == ':' || c == '"' || c == '/' ||
  c == '\\' || c == '|' || c == '?' || c == '*'

/-- Character class `[\s_]` of the collapse regex. -/
def isSpaceUnd (c : Char) : Bool :=
  isPySpace c || c == '_'

/-- `re.sub(r"[\s_]+", "_", s)`: each maximal whitespace/underscore run
becomes a single underscore.  The flag tracks being inside a run. -/
def collapseGo (b : Bool) : List Char → List Char
  | [] => []
  | c :: rest =>
    if isSpaceUnd c then
      if b then collapseGo true rest else '_' :: collapseGo true rest
    else c :: collapseGo false rest

/-- Member of the strip set `". "`. -/
def isDotSpace (c : Char) : Bool :=
  c == '.' || c == ' '

/-- Python `str.rstrip(". ")`, structurally recursive. -/
def rstripDotSpace : List Char → List Char
  | [] => []
  | c :: rest =>
    match rstripDotSpace rest with
    | [] => if isDotSpace c then [] else [c]
    | r => c :: r

/-- utils.sanitize_filename: replace invalid characters with `_`, drop
control characters (`ord < 32`), collapse whitespace/underscore runs,
strip `". "` from both ends, truncate to `maxLength` re-stripping the
tail, and fall back to `"unnamed"` when empty. -/
def sanitize_filename (s : List Char) (maxLength : Nat := 200) : List Char :=
  let s1 := s.map (fun c => if isInvalidFsChar c then '_' else c)
  let s2 := s1.filter (fun c => 32 ≤ c.toNat)
  let s3 := collapseGo false s2
  let s4 := rstripDotSpace (s3.dropWhile isDotSpace)
  let s5 := if s4.length > maxLength then rstripDotSpace (s4.take maxLength) else s4
  if s5.isEmpty then "unnamed".toList else s5

/-! ## Generic string scanners shared by search/profile/auth/downloader -/

/-- `pat` is a leading piece of `s` (used for `str.startswith`). -/
def startsWithList : List Char → List Char → Bool
  | [], _ => true
  | _, [] => false
  | p :: ps, c :: cs => p == c && startsWithList ps cs

/-- `pat in s` (Python substring test). -/
def hasSubstr (pat : List Char) : List Char → Bool
  | [] => startsWithList pat []
  | s@(_ :: rest) => startsWithList pat s || hasSubstr pat rest

/-- Drop a literal leading piece, or fail. -/
def stripLead : List Char → List Char → Option (List Char)
  | [], s => some s
  | _, [] => none
  | p :: ps, c :: cs => if p = c then stripLead ps cs else none

/-- The digits of `seg(\d+)` when the match starts right here. -/
def segDigitsHere (seg s : List Char) : Option (List Char) :=
  match stripLead seg s with
  | none => none
  | some rest =>
    if (rest.takeWhile isDigitChar).isEmpty then none
    else some (rest.takeWhile isDigitChar)

/-- `re.search(seg + r"(\d+)", s)`: digits of the leftmost match of a
literal segment followed by a maximal digit run (used with `/videos/`
and `/users/`). -/
def findSegDigits (seg : List Char) : List Char → Option (List Char)
  | [] => none
  | s@(_ :: rest) =>
    match segDigitsHere seg s with
    | some ds => some ds
    | none => findSegDigits seg rest

/-- Python list slice `l[:k]` (a negative bound counts from the end). -/
def pyTake {α : Type} (l : List α) (k : Int) : List α :=
  if 0 ≤ k then l.take k.toNat else l.take (l.length - (-k).toNat)

/-- Python `a or b` where `a` is `None`-or-string (empty string falsy). -/
def pyOrStr : Option (List Char) → Option (List Char) → Option (List Char)
  | some s, b => if s.isEmpty then b else some s
  | none, b => b

/-- Truthiness filter: `None` and `""` collapse to `none`. -/
def truthyOpt : Option (List Char) → Option (List Char)
  | some u => if u.isEmpty then none else some u
  | none => none

/-! ## Data model (search.VideoInfo) -/

/-- search.VideoInfo: the normalized media record. -/
structure VideoInfo where
  video_id : List Char
  title : List Char
  url : List Char
  uploader : List Char
  uploader_id : List Char
  duration : Int
  thumbnail_url : Option (List Char) := none
  upload_date : Option (List Char) := none
  download_url : Option (List Char) := none
deriving DecidableEq

/-! ## The embedded-JSON listing strategy (search.search_videos body) -/

/-- One entry of a video's `sources` array; `src` may be absent. -/
structure SourceEntry where
  src : Option (List Char)
deriving DecidableEq

/-- One entry of `stories[].attributes.videos[]`.  `idStr` is the
stringified `video_data.get("id", "")` (empty when the field is missing
or empty); `formattedTitle` is `none` when the key is absent. -/
structure VideoData where
  idStr : List Char
  path : List Char
  formattedTitle : Option (List Char)
  durationString : List Char
  sources : List SourceEntry
  screencapSrc : Option (List Char)
  createdAt : Option (List Char)
deriving DecidableEq

/-- One element of the decoded `stories` array. -/
structure Story where
  videos : List VideoData
deriving DecidableEq

/-- Shape of one fetched search page: the component may be missing, its
`data-props` may be missing or undecodable, or it decodes to stories. -/
inductive SearchPage where
  | noComponent
  | noProps
  | badJson
  | stories (ss : List Story)
deriving DecidableEq

/-- `story.get("attributes", {}).get("videos", [])` flattened in
iteration order. -/
def flattenStories (ss : List Story) : List VideoData :=
  (ss.map Story.videos).flatten

/-- search.search_videos lines 229-267: build one VideoInfo from a JSON
video entry. -/
def mkVideoInfo (base : List Char) (vd : VideoData) : VideoInfo :=
  let video_id := vd.idStr
  let video_url := if vd.path.isEmpty then [] else base ++ vd.path
  let title :=
    match vd.formattedTitle with
    | some t => t
    | none => "Video ".toList ++ video_id
  let uploader :=
    if vd.path.isEmpty then "Unknown".toList
    else
      match splitOnChar '/' vd.path with
      | _ :: p1 :: _ => p1
      | _ => "Unknown".toList
  let duration : Int :=
    if vd.durationString.isEmpty then 0
    else
      match parse_duration vd.durationString with
      | some v => v
      | none => 0
  let download_url :=
    match vd.sources with
    | [] => none
    | s :: _ => s.src
  { video_id := video_id, title := title, url := video_url,
    uploader := uploader, uploader_id := ['0'], duration := duration,
    thumbnail_url := vd.screencapSrc, upload_date := vd.createdAt,
    download_url := download_url }

/-! ## The DOM listing strategy (search.parse_video_element) -/

/-- An anchor element: its `href` attribute and its stripped-joined text. -/
structure Anchor where
  href : List Char
  text : List Char
deriving DecidableEq

/-- An `img` element with its `src` / `data-src` attributes. -/
structure ImgElem where
  src : Option (List Char)
  dataSrc : Option (List Char)
deriving DecidableEq

/-- A date-bearing element (`time` tag or date-classed element): its
`datetime` attribute and its text. -/
structure DateElem where
  datetime : Option (List Char)
  text : List Char
deriving DecidableEq

/-- Abstraction of one candidate video card, exposing exactly the
queries `parse_video_element` performs on it: its anchors in document
order, first `h3`/`h2` text, first duration-classed element's text, its
text nodes in document order (for `find(string=...)`), first image, and
first date element. -/
structure DomElement where
  anchors : List Anchor
  h3Text : Option (List Char)
  h2Text : Option (List Char)
  durationClassText : Option (List Char)
  textNodes : List (List Char)
  img : Option ImgElem
  dateElem : Option DateElem
deriving DecidableEq

/-- The regex `\d+:\d+` finds a match inside `s`. -/
def hasColonDigits : List Char → Bool
  | a :: b :: c :: rest =>
    (isDigitChar a && b == ':' && isDigitChar c) || hasColonDigits (b :: c :: rest)
  | _ => false

/-- "/videos/" segment literal. -/
def videosSeg : List Char := "/videos/".toList

/-- "/users/" segment literal. -/
def usersSeg : List Char := "/users/".toList

/-- "http" scheme literal. -/
def httpChars : List Char := "http".toList

/-- search.parse_video_element: DOM strategy for one card; `none` models
the element being skipped (no video link, or a swallowed exception). -/
def parse_video_element (el : DomElement) (base : List Char) : Option VideoInfo :=
  match el.anchors.find? (fun a => (findSegDigits videosSeg a.href).isSome) with
  | none => none
  | some video_link =>
    let video_url :=
      if startsWithList httpChars video_link.href then video_link.href
      else base ++ video_link.href
    match findSegDigits videosSeg video_url with
    | none => none
    | some video_id =>
      let title :=
        match el.h3Text with
        | some t => pyStrip t
        | none =>
          match el.h2Text with
          | some t => pyStrip t
          | none => pyStrip video_link.text
      let (uploader, uploader_id) :=
        match el.anchors.find? (fun a => (findSegDigits usersSeg a.href).isSome) with
        | none => ("Unknown".toList, ['0'])
        | some ul =>
          let uid :=
            match findSegDigits usersSeg ul.href with
            | some d => d
            | none => ['0']
          (pyStrip ul.text, uid)
      let durStr : Option (List Char) :=
        match el.durationClassText with
        | some t => some (pyStrip t)
        | none => el.textNodes.find? hasColonDigits
      let duration : Int :=
        match durStr with
        | none => 0
        | some ds =>
          match parse_duration ds with
          | some v => v
          | none => 0
      let thumbnail :=
        match el.img with
        | none => none
        | some im => pyOrStr im.src im.dataSrc
      let upload_date :=
        match el.dateElem with
        | none => none
        | some de =>
          match truthyOpt de.datetime with
          | some d => some d
          | none => some (pyStrip de.text)
      some { video_id := video_id, title := title, url := video_url,
             uploader := uploader, uploader_id := uploader_id,
             duration := duration, thumbnail_url := thumbnail,
             upload_date := upload_date, download_url := none }

/-! ## The shared pagination inner loop -/

/-- The per-item body shared by search.py lines 226-279 and profile.py
lines 132-145: keep an item unless the min-duration filter removes it. -/
def keepByDuration (minDur : Int) (vi : VideoInfo) : Option VideoInfo :=
  if minDur > 0 ∧ vi.duration < minDur then none else some vi

/-- JSON-strategy step: build the record, then filter. -/
def searchStep (base : List Char) (minDur : Int) (vd : VideoData) : Option VideoInfo :=
  keepByDuration minDur (mkVideoInfo base vd)

/-- DOM-strategy step: parse the card (skip on failure), then filter. -/
def profileStep (base : List Char) (minDur : Int) (el : DomElement) : Option VideoInfo :=
  (parse_video_element el base).bind (keepByDuration minDur)

/-- The common inner page loop: accumulate `page_videos`; after each
append test `if limit and len(videos) + len(page_videos) >= limit` and
early-return `videos + page_videos[:limit - len(videos)]`
(`Sum.inr`); otherwise finish the page (`Sum.inl page_videos`). -/
def collectGo {α : Type} (step : α → Option VideoInfo) (limit : Option Nat)
    (videos : List VideoInfo) (pv : List VideoInfo) :
    List α → List VideoInfo ⊕ List VideoInfo
  | [] => Sum.inl pv
  | x :: rest =>
    match step x with
    | none => collectGo step limit videos pv rest
    | some vi =>
      let pv' := pv ++ [vi]
      match limit with
      | some l =>
        if l ≠ 0 ∧ l ≤ videos.length + pv'.length then
          Sum.inr (videos ++ pyTake pv' ((l : Int) - (videos.length : Int)))
        else collectGo step limit videos pv' rest
      | none => collectGo step limit videos pv' rest

/-! ## search.search_videos -/

/-- search.SearchError cases reachable in the model. -/
inductive SearchErr where
  | notAuthenticated
deriving DecidableEq

/-- The `while True` page loop of search_videos.  The list holds the
site's available pages in order; running past its end is a fetch that
reports no stories.  The second component counts page GETs. -/
def searchLoop (base : List Char) (minDur : Int) (limit : Option Nat)
    (videos : List VideoInfo) (n : Nat) :
    List SearchPage → List VideoInfo × Nat
  | [] => (videos, n + 1)
  | p :: rest =>
    match p with
    | .noComponent => (videos, n + 1)
    | .noProps => (videos, n + 1)
    | .badJson => (videos, n + 1)
    | .stories ss =>
      if ss.isEmpty then (videos, n + 1)
      else
        match collectGo (searchStep base minDur) limit videos [] (flattenStories ss) with
        | Sum.inr final => (final, n + 1)
        | Sum.inl pv => searchLoop base minDur limit (videos ++ pv) (n + 1) rest

/-- search.search_videos: guard on `client.authenticated` first (before
any request), then run the page loop. -/
def search_videos (authenticated : Bool) (base : List Char) (minDur : Int)
    (limit : Option Nat) (pages : List SearchPage) :
    Except SearchErr (List VideoInfo) × Nat :=
  if !authenticated then (.error .notAuthenticated, 0)
  else
    let (vids, n) := searchLoop base minDur limit [] 0 pages
    (.ok vids, n)

/-! ## profile.get_profile_videos -/

/-- profile.ProfileError cases reachable in the model. -/
inductive ProfileErr where
  | notAuthenticated
  | userNotFound
deriving DecidableEq

/-- One fetched profile page: the video-card elements the selector
cascade found, and whether an `a[rel=next]` link is present. -/
structure ProfilePage where
  elements : List DomElement
  hasNext : Bool
deriving DecidableEq

/-- profile.extract_user_id: digits pass through, else the first
`/users/(\d+)` match, else `None`. -/
def extract_user_id (s : List Char) : Option (List Char) :=
  if pyIsDigit s then some s
  else findSegDigits usersSeg s

/-- The `while True` page loop of get_profile_videos.  Stops on a page
with no elements, a page whose post-filter yield is empty, or a missing
next link; running past the list is a fetch with no elements. -/
def profileLoop (base : List Char) (minDur : Int) (limit : Option Nat)
    (videos : List VideoInfo) (n : Nat) :
    List ProfilePage → List VideoInfo × Nat
  | [] => (videos, n + 1)
  | p :: rest =>
    if p.elements.isEmpty then (videos, n + 1)
    else
      match collectGo (profileStep base minDur) limit videos [] p.elements with
      | Sum.inr final => (final, n + 1)
      | Sum.inl pv =>
        if pv.isEmpty then (videos, n + 1)
        else
          let videos' := videos ++ pv
          if p.hasNext then profileLoop base minDur limit videos' (n + 1) rest
          else (videos', n + 1)

/-- profile.get_profile_videos: guard on `client.authenticated` first
(before any request); resolve the user (the nickname lookup is one GET,
abstracted by `nickLookup`); then run the page loop. -/
def get_profile_videos (authenticated : Bool) (base : List Char)
    (ident : List Char) (nickLookup : Option (List Char)) (minDur : Int)
    (limit : Option Nat) (pages : List ProfilePage) :
    Except ProfileErr (List VideoInfo) × Nat :=
  if !authenticated then (.error .notAuthenticated, 0)
  else
    match extract_user_id ident with
    | some _ =>
      let (vids, n) := profileLoop base minDur limit [] 0 pages
      (.ok vids, n)
    | none =>
      match nickLookup with
      | some _ =>
        let (vids, n) := profileLoop base minDur limit [] 1 pages
        (.ok vids, n)
      | none => (.error .userNotFound, 1)

/-! ## auth.extract_csrf_token and auth.authenticate -/

/-- Error taxonomy of auth.AuthenticationError as raised by authenticate. -/
inductive AuthErr where
  | missingCreds
  | noToken
  | loginRejected (msg : List Char)
  | genericFailure
deriving DecidableEq

/-- A login page abstracted to the three token probes the code runs:
`find("meta", name=csrf-token)` (outer `Option`) and its `content`
attribute (inner), `find("input", name=authenticity_token)` and its
`value`, and the inline-script regex's first capture group. -/
structure LoginPage where
  metaTag : Option (Option (List Char))
  tokenInput : Option (Option (List Char))
  scriptToken : Option (List Char)
deriving DecidableEq

/-- `if elem and elem.get(attr): return elem[attr]`: the element must
exist and the attribute be present and non-empty (truthy). -/
def probeToken : Option (Option (List Char)) → Option (List Char)
  | some (some c) => if c.isEmpty then none else some c
  | _ => none

/-- auth.extract_csrf_token: meta tag, then hidden input, then script
regex; first match wins. -/
def extract_csrf_token (p : LoginPage) : Option (List Char) :=
  match probeToken p.metaTag with
  | some c => some c
  | none =>
    match probeToken p.tokenInput with
    | some c => some c
    | none => p.scriptToken

/-- The login POST's observable response: final status, final URL after
redirects, and the text of the first error/alert-classed element. -/
structure LoginResponse where
  status : Nat
  finalUrl : List Char
  errorText : Option (List Char)
deriving DecidableEq

/-- "/home" post-login path fragment. -/
def homeChars : List Char := "/home".toList

/-- auth.authenticate.  Returns the outcome plus the number of GETs and
of POSTs issued.  Missing credentials raise before any request; a page
with no token raises after the single GET and before any POST; otherwise
the form POST is submitted and judged by status and final URL. -/
def authenticate (username password : List Char) (page : LoginPage)
    (resp : LoginResponse) : Except AuthErr Bool × Nat × Nat :=
  if username.isEmpty || password.isEmpty then (.error .missingCreds, 0, 0)
  else
    match extract_csrf_token page with
    | none => (.error .noToken, 1, 0)
    | some _ =>
      if resp.status == 200 && hasSubstr homeChars resp.finalUrl then
        (.ok true, 1, 1)
      else
        match resp.errorText with
        | some t => (.error (.loginRejected t), 1, 1)
        | none => (.error .genericFailure, 1, 1)

/-! ## downloader.VideoDownloader -/

/-- Outcome of download_video: the code returns `True` both for skips
and successes and `False` for failures; the model keeps the three paths
apart and maps them back where stats are counted. -/
inductive Outcome where
  | success
  | skipped
  | failed
deriving DecidableEq

/-- Downloader configuration: base URL and output directory. -/
structure DlConfig where
  baseUrl : List Char
  outputDir : List Char

/-- Environment oracle for the downloader's effects: the stream URL the
video page yields (`_get_video_download_url`, one page GET, `none` on
any failure), whether a direct HTTP stream download succeeds, and
whether an ffmpeg remux succeeds within its timeout. -/
structure DlEnv where
  pageStream : List Char → Option (List Char)
  httpOk : List Char → Bool
  ffmpegOk : List Char → Bool

/-- Downloader state: the ledger of downloaded ids (persisted JSON set)
and the set of files on disk. -/
structure DlState where
  ledger : List (List Char)
  files : List (List Char)
deriving DecidableEq

/-- `set.add`: insert if absent. -/
def insertId (ids : List (List Char)) (x : List Char) : List (List Char) :=
  if x ∈ ids then ids else ids ++ [x]

/-- The deterministic target path
`outputDir / sanitize(uploader) / sanitize(title)_id.mp4`. -/
def videoFilepath (cfg : DlConfig) (vi : VideoInfo) : List Char :=
  cfg.outputDir ++ '/' :: sanitize_filename vi.uploader 200 ++
    '/' :: (sanitize_filename vi.title 200 ++ '_' :: (vi.video_id ++ ".mp4".toList))

/-- ".m3u8" manifest marker. -/
def m3u8Chars : List Char := ".m3u8".toList

/-- Stream resolution of download_video lines 137-145: the record's own
`download_url` if truthy, else the video page's extracted source
(`_get_video_download_url`), with `""` falsy at both steps. -/
def resolveStream (env : DlEnv) (vi : VideoInfo) : Option (List Char) :=
  match truthyOpt vi.download_url with
  | some u => some u
  | none => truthyOpt (env.pageStream vi.url)

/-- download_video lines 147-149: make the stream URL absolute. -/
def absUrl (cfg : DlConfig) (u : List Char) : List Char :=
  if startsWithList httpChars u then u else cfg.baseUrl ++ u

/-- downloader.VideoDownloader.download_video.  The `Nat` counts network
fetches of the stream itself (direct GET or ffmpeg run; the fallback
page fetch inside `_get_video_download_url` is not a stream fetch).
Ledger skip and existing-file skip return before any network access;
the existing-file skip also inserts the id into the ledger.  A direct
download failure deletes the partial file (files unchanged); an ffmpeg
failure gives no cleanup guarantee and the model leaves files unchanged. -/
def download_video (cfg : DlConfig) (env : DlEnv) (st : DlState)
    (vi : VideoInfo) (skipExisting : Bool) : Outcome × DlState × Nat :=
  if skipExisting && decide (vi.video_id ∈ st.ledger) then (.skipped, st, 0)
  else
    let filepath := videoFilepath cfg vi
    if decide (filepath ∈ st.files) && skipExisting then
      (.skipped, { st with ledger := insertId st.ledger vi.video_id }, 0)
    else
      match resolveStream env vi with
      | none => (.failed, st, 0)
      | some u0 =>
        let url := absUrl cfg u0
        if hasSubstr m3u8Chars url then
          if env.ffmpegOk url then
            (.success,
             { ledger := insertId st.ledger vi.video_id,
               files := insertId st.files filepath }, 1)
          else (.failed, st, 1)
        else
          if env.httpOk url then
            (.success,
             { ledger := insertId st.ledger vi.video_id,
               files := insertId st.files filepath }, 1)
          else (.failed, st, 1)

/-- Batch statistics of download_videos. -/
structure DlStats where
  total : Nat
  success : Nat
  failed : Nat
  skipped : Nat
deriving DecidableEq

/-- The sequential batch loop of download_videos: the ledger pre-check
counts `skipped`; otherwise the item's `True`/`False` result counts
`success`/`failed` (an in-call skip returns `True`, hence counts as
success, exactly as the code does). -/
def dlLoop (cfg : DlConfig) (env : DlEnv) (skipExisting : Bool) :
    DlState → List VideoInfo → (Nat × Nat × Nat) × DlState × Nat
  | st, [] => ((0, 0, 0), st, 0)
  | st, v :: rest =>
    if skipExisting && decide (v.video_id ∈ st.ledger) then
      let ((s, f, k), st', n) := dlLoop cfg env skipExisting st rest
      ((s, f, k + 1), st', n)
    else
      let (o, st1, n1) := download_video cfg env st v skipExisting
      let ((s, f, k), st2, n2) := dlLoop cfg env skipExisting st1 rest
      match o with
      | .failed => ((s, f + 1, k), st2, n1 + n2)
      | _ => ((s + 1, f, k), st2, n1 + n2)

/-- downloader.download_videos: sequential iteration over the whole
batch, accumulating counts; `total` is the batch length. -/
def download_videos (cfg : DlConfig) (env : DlEnv) (st : DlState)
    (videos : List VideoInfo) (skipExisting : Bool) :
    DlStats × DlState × Nat :=
  let ((s, f, k), st', n) := dlLoop cfg env skipExisting st videos
  ({ total := videos.length, success := s, failed := f, skipped := k }, st', n)

/-! ## Helper lemmas -/

/-- The batch loop's three counters always sum to the number of items:
no item is dropped or aborts the iteration. -/
lemma dlLoop_counts (cfg : DlConfig) (env : DlEnv) (b : Bool) :
    ∀ (vs : List VideoInfo) (st : DlState),
      (dlLoop cfg env b st vs).1.1 + (dlLoop cfg env b st vs).1.2.1 +
        (dlLoop cfg env b st vs).1.2.2 = vs.length := by
  intro vs
  induction vs with
  | nil => intro st; simp [dlLoop]
  | cons v rest ih =>
    intro st
    by_cases h : (b && decide (v.video_id ∈ st.ledger)) = true
    · have hr := ih st
      rcases hq : dlLoop cfg env b st rest with ⟨⟨s, f, k⟩, st', n⟩
      rw [hq] at hr
      simp [dlLoop, h, hq]
      simp at hr
      omega
    · rcases hdv : download_video cfg env st v b with ⟨o, st1, n1⟩
      have hr := ih st1
      rcases hq : dlLoop cfg env b st1 rest with ⟨⟨s, f, k⟩, st', n2⟩
      rw [hq] at hr
      simp at hr
      cases o <;> simp [dlLoop, h, hdv, hq] <;> omega

/-- Collapsing runs only emits underscores or characters of the input. -/
lemma mem_collapseGo : ∀ (b : Bool) (l : List Char) (c : Char),
    c ∈ collapseGo b l → c = '_' ∨ c ∈ l := by
  intro b l
  induction l generalizing b with
  | nil => intro c hc; simp [collapseGo] at hc
  | cons a rest ih =>
    intro c hc
    by_cases ha : isSpaceUnd a = true
    · cases b with
      | true =>
        simp [collapseGo, ha] at hc
        rcases ih true c hc with h | h
        · exact Or.inl h
        · exact Or.inr (List.mem_cons_of_mem a h)
      | false =>
        simp [collapseGo, ha] at hc
        rcases hc with h | h
        · exact Or.inl h
        · rcases ih true c h with h2 | h2
          · exact Or.inl h2
          · exact Or.inr (List.mem_cons_of_mem a h2)
    · simp [collapseGo, ha] at hc
      rcases hc with h | h
      · exact Or.inr (h ▸ List.mem_cons_self a rest)
      · rcases ih false c h with h2 | h2
        · exact Or.inl h2
        · exact Or.inr (List.mem_cons_of_mem a h2)

/-- The head surviving dropWhile fails the predicate. -/
lemma head_dropWhile_not (p : Char → Bool) : ∀ (l : List Char) (c : Char),
    (l.dropWhile p).head? = some c → p c = false := by
  intro l
  induction l with
  | nil => intro c hc; simp [List.dropWhile] at hc
  | cons a rest ih =>
    intro c hc
    by_cases ha : p a = true
    · rw [List.dropWhile_cons_of_pos ha] at hc
      exact ih c hc
    · rw [List.dropWhile_cons_of_neg ha] at hc
      simp at hc
      subst hc
      simpa using ha

/-- rstrip keeps the head when it keeps anything. -/
lemma head_rstripDotSpace : ∀ (l : List Char) (c : Char),
    (rstripDotSpace l).head? = some c → l.head? = some c := by
  intro l c hc
  cases l with
  | nil => simp [rstripDotSpace] at hc
  | cons a rest =>
    simp only [rstripDotSpace] at hc
    split at hc
    · split at hc <;> simp_all
    · simp_all

/-- The last character surviving rstrip is not in the strip set. -/
lemma last_rstripDotSpace : ∀ (l : List Char) (c : Char),
    (rstripDotSpace l).getLast? = some c → isDotSpace c = false := by
  intro l
  induction l with
  | nil => intro c hc; simp [rstripDotSpace] at hc
  | cons a rest ih =>
    intro c hc
    simp only [rstripDotSpace] at hc
    split at hc
    · split at hc
      · simp at hc
      · rename_i ha
        simp at hc
        subst hc
        simpa using ha
    · rename_i heq
      cases hm : rstripDotSpace rest with
      | nil => exact absurd hm heq
      | cons r0 rs2 =>
        rw [hm, List.getLast?_cons_cons] at hc
        apply ih
        rw [hm]
        exact hc

/-- rstrip only returns characters of its input. -/
lemma mem_rstripDotSpace : ∀ (l : List Char) (c : Char),
    c ∈ rstripDotSpace l → c ∈ l := by
  intro l
  induction l with
  | nil => intro c hc; simp [rstripDotSpace] at hc
  | cons a rest ih =>
    intro c hc
    simp only [rstripDotSpace] at hc
    split at hc
    · split at hc
      · simp at hc
      · simp at hc
        simp [hc]
    · rcases List.mem_cons.mp hc with h | h
      · simp [h]
      · exact List.mem_cons_of_mem a (ih c h)

/-- rstrip never lengthens its input. -/
lemma length_rstripDotSpace : ∀ (l : List Char),
    (rstripDotSpace l).length ≤ l.length := by
  intro l
  induction l with
  | nil => simp [rstripDotSpace]
  | cons a rest ih =>
    simp only [rstripDotSpace]
    split
    · split <;> simp
    · simp only [List.length_cons]
      omega

/-- A head of a take is the head of the list. -/
lemma head_take {α : Type} : ∀ (l : List α) (n : Nat) (c : α),
    (l.take n).head? = some c → l.head? = some c := by
  intro l n c hc
  cases l with
  | nil => simp at hc
  | cons a rest =>
    cases n with
    | zero => simp at hc
    | succ m => simp at hc; simp [hc]

/-! ## parse_duration lemmas -/

/-- A digit is not Python whitespace. -/
lemma isPySpace_false_of_digit {c : Char} (h : isDigitChar c = true) :
    isPySpace c = false := by
  simp [isDigitChar] at h
  simp [isPySpace]
  omega

/-- dropWhile is the identity when no character satisfies the predicate. -/
lemma dropWhile_eq_self_of_none (p : Char → Bool) (l : List Char)
    (h : ∀ c ∈ l, p c = false) : l.dropWhile p = l := by
  cases l with
  | nil => rfl
  | cons a rest =>
    exact List.dropWhile_cons_of_neg (by simp [h a (List.mem_cons_self a rest)])

/-- pyStrip is the identity on whitespace-free strings. -/
lemma pyStrip_eq_self {l : List Char} (h : ∀ c ∈ l, isPySpace c = false) :
    pyStrip l = l := by
  unfold pyStrip
  rw [dropWhile_eq_self_of_none isPySpace l h]
  rw [dropWhile_eq_self_of_none isPySpace l.reverse
    (fun c hc => h c (List.mem_reverse.mp hc))]
  exact List.reverse_reverse l

/-- takeWhile and dropWhile across an all-true block followed by a
failing character. -/
lemma takeWhile_dropWhile_append (p : Char → Bool) (c : Char) (hc : p c = false) :
    ∀ (a b : List Char), a.all p = true →
      (a ++ c :: b).takeWhile p = a ∧ (a ++ c :: b).dropWhile p = c :: b := by
  intro a
  induction a with
  | nil =>
    intro b _
    constructor
    · simp [List.takeWhile_cons, hc]
    · simp [List.dropWhile_cons, hc]
  | cons x xs ih =>
    intro b hall
    simp only [List.all_cons, Bool.and_eq_true] at hall
    obtain ⟨hx, hxs⟩ := hall
    obtain ⟨ht, hd⟩ := ih b hxs
    constructor
    · simp [List.takeWhile_cons, hx, ht]
    · simp [List.dropWhile_cons, hx, hd]

/-- digitsCore on an all-digit run folds the digits onto the accumulator. -/
lemma digitsCore_all_digits :
    ∀ (l : List Char) (acc : Nat), l.all isDigitChar = true →
      digitsCore acc false l =
        some (l.foldl (fun n c => n * 10 + (c.toNat - 48)) acc) := by
  intro l
  induction l with
  | nil => intro acc _; rfl
  | cons c rest ih =>
    intro acc hall
    simp only [List.all_cons, Bool.and_eq_true] at hall
    obtain ⟨hc, hrest⟩ := hall
    rw [show digitsCore acc false (c :: rest) =
        digitsCore (acc * 10 + (c.toNat - 48)) false rest from by
      simp [digitsCore, hc]]
    rw [ih _ hrest]
    rfl

/-- parseDigitsU accepts a plain non-empty digit run. -/
lemma parseDigitsU_all_digits (l : List Char) (hne : l ≠ [])
    (hall : l.all isDigitChar = true) : parseDigitsU l = some (digitsToNat l) := by
  cases l with
  | nil => exact absurd rfl hne
  | cons c rest =>
    simp only [List.all_cons, Bool.and_eq_true] at hall
    obtain ⟨hc, hrest⟩ := hall
    rw [show parseDigitsU (c :: rest) = digitsCore (c.toNat - 48) false rest from by
      simp [parseDigitsU, hc]]
    rw [digitsCore_all_digits rest _ hrest]
    have harith : 0 * 10 + (c.toNat - 48) = c.toNat - 48 := by omega
    simp [digitsToNat, List.foldl_cons, harith]

/-- Python int accepts a plain non-empty digit string. -/
lemma pyInt?_all_digits (l : List Char) (hne : l ≠ [])
    (hall : l.all isDigitChar = true) :
    pyInt? l = some ((digitsToNat l : Nat) : Int) := by
  have hstrip : pyStrip l = l :=
    pyStrip_eq_self (fun c hc =>
      isPySpace_false_of_digit (List.all_eq_true.mp hall c hc))
  cases l with
  | nil => exact absurd rfl hne
  | cons c rest =>
    have hc : isDigitChar c = true :=
      List.all_eq_true.mp hall c (List.mem_cons_self c rest)
    have hplus : ¬ c = '+' := by
      intro h; subst h; simp [isDigitChar] at hc
    have hminus : ¬ c = '-' := by
      intro h; subst h; simp [isDigitChar] at hc
    unfold pyInt?
    rw [hstrip]
    simp only [hplus, if_false, hminus]
    rw [parseDigitsU_all_digits (c :: rest) (by simp) hall]
    rfl

/-- Characters of the stripped string are characters of the original. -/
lemma mem_pyStrip (l : List Char) (c : Char) (hc : c ∈ pyStrip l) : c ∈ l := by
  unfold pyStrip at hc
  rw [List.mem_reverse] at hc
  have h2 := (List.dropWhile_sublist isPySpace).subset hc
  rw [List.mem_reverse] at h2
  exact (List.dropWhile_sublist isPySpace).subset h2

/-- A negative Python int comes from a leading minus sign. -/
lemma pyInt?_neg_has_minus (l : List Char) (v : Int)
    (hv : pyInt? l = some v) (hneg : v < 0) : '-' ∈ l := by
  unfold pyInt? at hv
  have hsub : ∀ c, c ∈ pyStrip l → c ∈ l := fun c => mem_pyStrip l c
  split at hv
  case _ => simp at hv
  case _ c rest hps =>
    by_cases hp : c = '+'
    · rw [if_pos hp] at hv
      cases hq : parseDigitsU rest with
      | none => rw [hq] at hv; simp at hv
      | some n => rw [hq] at hv; simp at hv; omega
    · by_cases hm : c = '-'
      · subst hm
        exact hsub '-' (by rw [hps]; exact List.mem_cons_self _ _)
      · rw [if_neg hp, if_neg hm] at hv
        cases hq : parseDigitsU (c :: rest) with
        | none => rw [hq] at hv; simp at hv
        | some n => rw [hq] at hv; simp at hv; omega

/-- splitOnChar never returns the empty list of parts. -/
lemma splitOnChar_ne_nil (sep : Char) : ∀ l, splitOnChar sep l ≠ [] := by
  intro l
  cases l with
  | nil => simp [splitOnChar]
  | cons c rest =>
    by_cases h : c = sep
    · simp [splitOnChar, h]
    · simp only [splitOnChar, h, if_false]
      split <;> simp

/-- splitOnChar on a separator-free string is a single part. -/
lemma splitOnChar_no_sep (sep : Char) :
    ∀ l, (∀ c ∈ l, ¬ c = sep) → splitOnChar sep l = [l] := by
  intro l
  induction l with
  | nil => intro _; rfl
  | cons c rest ih =>
    intro h
    have hc : ¬ c = sep := h c (List.mem_cons_self c rest)
    have := ih (fun x hx => h x (List.mem_cons_of_mem c hx))
    simp only [splitOnChar, hc, if_false]
    rw [this]

/-- splitOnChar peels a separator-free head part. -/
lemma splitOnChar_append (sep : Char) (b : List Char) :
    ∀ a, (∀ c ∈ a, ¬ c = sep) →
      splitOnChar sep (a ++ sep :: b) = a :: splitOnChar sep b := by
  intro a
  induction a with
  | nil => intro _; simp [splitOnChar]
  | cons x xs ih =>
    intro h
    have hx : ¬ x = sep := h x (List.mem_cons_self x xs)
    have := ih (fun c hc => h c (List.mem_cons_of_mem x hc))
    simp only [List.cons_append, splitOnChar, hx, if_false]
    have hfold : xs.append (sep :: b) = xs ++ sep :: b := rfl
    rw [hfold, this]

/-- Characters of split parts are characters of the input. -/
lemma mem_splitOnChar (sep : Char) :
    ∀ (l : List Char) (part : List Char) (c : Char),
      part ∈ splitOnChar sep l → c ∈ part → c ∈ l := by
  intro l
  induction l with
  | nil =>
    intro part c hp hc
    simp [splitOnChar] at hp
    subst hp
    simp at hc
  | cons x rest ih =>
    intro part c hp hc
    by_cases hx : x = sep
    · simp only [splitOnChar, hx, if_pos] at hp
      rcases List.mem_cons.mp hp with h | h
      · subst h; simp at hc
      · exact List.mem_cons_of_mem x (ih part c h hc)
    · simp only [splitOnChar, hx, if_false] at hp
      cases hq : splitOnChar sep rest with
      | nil => exact absurd hq (splitOnChar_ne_nil sep rest)
      | cons g gs =>
        rw [hq] at hp
        rcases List.mem_cons.mp hp with h | h
        · subst h
          rcases List.mem_cons.mp hc with h2 | h2
          · simp [h2]
          · exact List.mem_cons_of_mem x
              (ih g c (by rw [hq]; exact List.mem_cons_self g gs) h2)
        · exact List.mem_cons_of_mem x
            (ih part c (by rw [hq]; exact List.mem_cons_of_mem g h) hc)

end FetScraper

namespace FetScraper

/-! ## shorthand-group lemmas -/

/-- The group consumes a digit run directly followed by its unit letter. -/
lemma unitNum_append_eq (u : Char) (hu : isDigitChar u = false)
    (ds rest : List Char) (hne : ds ≠ []) (hall : ds.all isDigitChar = true) :
    unitNum u (ds ++ u :: rest) = some (digitsToNat ds, rest) := by
  obtain ⟨ht, hd⟩ := takeWhile_dropWhile_append isDigitChar u hu ds rest hall
  simp [unitNum, ht, hd, hne]

/-- The group fails when the character after the digit run is a
different non-digit. -/
lemma unitNum_append_ne (u c : Char) (hcu : ¬ c = u) (hcd : isDigitChar c = false)
    (ds rest : List Char) (hall : ds.all isDigitChar = true) :
    unitNum u (ds ++ c :: rest) = none := by
  obtain ⟨ht, hd⟩ := takeWhile_dropWhile_append isDigitChar c hcd ds rest hall
  simp [unitNum, ht, hd, hcu]

/-- The group fails on the empty remainder. -/
lemma unitNum_nil (u : Char) : unitNum u [] = none := rfl

end FetScraper

namespace FetScraper

/-! ## The spec's accepted duration formats -/

/-- Spec-side rendering of one optional `N`+unit factor of `NhNmNs`. -/
def renderUnit (o : Option (List Char)) (u : Char) : List Char :=
  match o with
  | some ds => ds ++ [u]
  | none => []

/-- Spec-side rendering of an `NhNmNs` string (each unit optional). -/
def renderShort (oh om os : Option (List Char)) : List Char :=
  renderUnit oh 'h' ++ renderUnit om 'm' ++ renderUnit os 's'

/-- Numeric value of one optional factor. -/
def optVal (o : Option (List Char)) : Nat :=
  match o with
  | some ds => digitsToNat ds
  | none => 0

/-- Modelled from the spec: the duration formats §8 says are accepted,
with their values — plain integer seconds, `MM:SS`, `H:MM:SS`, and
`NhNmNs` shorthand with at least one unit present. -/
inductive SpecAcceptedDuration : List Char → Int → Prop where
  | digits (s : List Char) (hne : s ≠ []) (hall : s.all isDigitChar = true) :
      SpecAcceptedDuration s ((digitsToNat s : Nat) : Int)
  | colon2 (a b : List Char) (hane : a ≠ []) (ha : a.all isDigitChar = true)
      (hbne : b ≠ []) (hb : b.all isDigitChar = true) :
      SpecAcceptedDuration (a ++ ':' :: b)
        (60 * ((digitsToNat a : Nat) : Int) + ((digitsToNat b : Nat) : Int))
  | colon3 (a b c : List Char) (hane : a ≠ []) (ha : a.all isDigitChar = true)
      (hbne : b ≠ []) (hb : b.all isDigitChar = true)
      (hcne : c ≠ []) (hc : c.all isDigitChar = true) :
      SpecAcceptedDuration (a ++ ':' :: (b ++ ':' :: c))
        (3600 * ((digitsToNat a : Nat) : Int) +
         60 * ((digitsToNat b : Nat) : Int) + ((digitsToNat c : Nat) : Int))
  | shorthand (oh om os : Option (List Char))
      (hh : ∀ ds, oh = some ds → ds ≠ [] ∧ ds.all isDigitChar = true)
      (hm : ∀ ds, om = some ds → ds ≠ [] ∧ ds.all isDigitChar = true)
      (hs : ∀ ds, os = some ds → ds ≠ [] ∧ ds.all isDigitChar = true)
      (hone : oh ≠ none ∨ om ≠ none ∨ os ≠ none) :
      SpecAcceptedDuration (renderShort oh om os)
        ((3600 * optVal oh + 60 * optVal om + optVal os : Nat) : Int)

/-- A non-empty list is not isEmpty. -/
lemma isEmpty_false_of_ne {α : Type} {l : List α} (h : l ≠ []) :
    l.isEmpty = false := by
  cases l with
  | nil => exact absurd rfl h
  | cons _ _ => rfl

/-- A list containing a non-digit is not a pure digit string. -/
lemma pyIsDigit_false_of_mem (l : List Char) (x : Char) (hx : x ∈ l)
    (hxd : isDigitChar x = false) : pyIsDigit l = false := by
  have hall : l.all isDigitChar = false := by
    by_contra h
    have h2 := List.all_eq_true.mp (by simpa using h) x hx
    rw [hxd] at h2
    exact Bool.noConfusion h2
  simp [pyIsDigit, hall]

/-- Strings of digits, colons and unit letters have no whitespace. -/
lemma pyStrip_eq_self_of_units (t : List Char)
    (h : ∀ c ∈ t, isDigitChar c = true ∨ c = ':' ∨ c = 'h' ∨ c = 'm' ∨ c = 's') :
    pyStrip t = t := by
  apply pyStrip_eq_self
  intro c hc
  rcases h c hc with h1 | h1 | h1 | h1 | h1
  · exact isPySpace_false_of_digit h1
  all_goals (subst h1; decide)

/-- parse_duration through the digit branch. -/
lemma parse_duration_digits (s : List Char) (hne : s ≠ [])
    (hall : s.all isDigitChar = true) :
    parse_duration s = some ((digitsToNat s : Nat) : Int) := by
  have hstrip : pyStrip s = s :=
    pyStrip_eq_self (fun c hc =>
      isPySpace_false_of_digit (List.all_eq_true.mp hall c hc))
  have hdig : pyIsDigit s = true := by
    simp [pyIsDigit, hall, isEmpty_false_of_ne hne]
  simp [parse_duration, isEmpty_false_of_ne hne, hstrip, hdig]

/-- parse_duration through the shorthand branch. -/
lemma parse_duration_of_shorthand (t : List Char) (v : Int)
    (hie : t.isEmpty = false) (hstrip : pyStrip t = t)
    (hdig : pyIsDigit t = false) (hsh : shorthand? t = some v) :
    parse_duration t = some v := by
  simp [parse_duration, hie, hstrip, hdig, hsh]

/-- Characters of one rendered unit factor. -/
lemma mem_renderUnit (o : Option (List Char)) (u : Char)
    (ho : ∀ ds, o = some ds → ds.all isDigitChar = true) :
    ∀ c ∈ renderUnit o u, isDigitChar c = true ∨ c = u := by
  intro c hc
  cases o with
  | none => simp [renderUnit] at hc
  | some ds =>
    simp [renderUnit] at hc
    rcases hc with h | h
    · exact Or.inl (List.all_eq_true.mp (ho ds rfl) c h)
    · exact Or.inr h

/-- Characters of a rendered shorthand string are digits or unit letters. -/
lemma mem_renderShort (oh om os : Option (List Char))
    (hh : ∀ ds, oh = some ds → ds.all isDigitChar = true)
    (hm : ∀ ds, om = some ds → ds.all isDigitChar = true)
    (hs : ∀ ds, os = some ds → ds.all isDigitChar = true) :
    ∀ c ∈ renderShort oh om os,
      isDigitChar c = true ∨ c = 'h' ∨ c = 'm' ∨ c = 's' := by
  intro c hc
  unfold renderShort at hc
  rcases List.mem_append.mp hc with h | h
  · rcases List.mem_append.mp h with h3 | h3
    · rcases mem_renderUnit oh 'h' hh c h3 with h2 | h2
      · exact Or.inl h2
      · exact Or.inr (Or.inl h2)
    · rcases mem_renderUnit om 'm' hm c h3 with h2 | h2
      · exact Or.inl h2
      · exact Or.inr (Or.inr (Or.inl h2))
  · rcases mem_renderUnit os 's' hs c h with h2 | h2
    · exact Or.inl h2
    · exact Or.inr (Or.inr (Or.inr h2))

/-- A rendered shorthand string with at least one unit holds that
unit's letter. -/
lemma renderShort_has_letter (oh om os : Option (List Char))
    (hone : oh ≠ none ∨ om ≠ none ∨ os ≠ none) :
    ∃ u, (u = 'h' ∨ u = 'm' ∨ u = 's') ∧ u ∈ renderShort oh om os := by
  cases oh with
  | some hds =>
    exact ⟨'h', Or.inl rfl, by simp [renderShort, renderUnit]⟩
  | none =>
    cases om with
    | some mds =>
      exact ⟨'m', Or.inr (Or.inl rfl), by simp [renderShort, renderUnit]⟩
    | none =>
      cases os with
      | some sds =>
        exact ⟨'s', Or.inr (Or.inr rfl), by simp [renderShort, renderUnit]⟩
      | none => simp at hone

/-- A rendered shorthand string with at least one unit is non-empty. -/
lemma renderShort_ne_nil (oh om os : Option (List Char))
    (hone : oh ≠ none ∨ om ≠ none ∨ os ≠ none) :
    renderShort oh om os ≠ [] := by
  intro h
  obtain ⟨u, _, hmem⟩ := renderShort_has_letter oh om os hone
  rw [h] at hmem
  simp at hmem

end FetScraper

namespace FetScraper

/-- shorthand? evaluates a rendered `NhNmNs` string to its value. -/
lemma shorthand?_render (oh om os : Option (List Char))
    (hh : ∀ ds, oh = some ds → ds ≠ [] ∧ ds.all isDigitChar = true)
    (hm : ∀ ds, om = some ds → ds ≠ [] ∧ ds.all isDigitChar = true)
    (hs : ∀ ds, os = some ds → ds ≠ [] ∧ ds.all isDigitChar = true)
    (hone : oh ≠ none ∨ om ≠ none ∨ os ≠ none) :
    shorthand? (renderShort oh om os) =
      some ((3600 * optVal oh + 60 * optVal om + optVal os : Nat) : Int) := by
  rcases oh with _ | hds <;> rcases om with _ | mds <;> rcases os with _ | sds
  · simp at hone
  · obtain ⟨hsne, hsall⟩ := hs sds rfl
    have ht : renderShort none none (some sds) = sds ++ 's' :: [] := by
      simp [renderShort, renderUnit]
    rw [ht]
    have h1 := unitNum_append_ne 'h' 's' (by decide) (by decide) sds [] hsall
    have h2 := unitNum_append_ne 'm' 's' (by decide) (by decide) sds [] hsall
    have h3 := unitNum_append_eq 's' (by decide) sds [] hsne hsall
    simp [shorthand?, h1, h2, h3, optVal]
  · obtain ⟨hmne, hmall⟩ := hm mds rfl
    have ht : renderShort none (some mds) none = mds ++ 'm' :: [] := by
      simp [renderShort, renderUnit]
    rw [ht]
    have h1 := unitNum_append_ne 'h' 'm' (by decide) (by decide) mds [] hmall
    have h2 := unitNum_append_eq 'm' (by decide) mds [] hmne hmall
    simp [shorthand?, h1, h2, unitNum_nil, optVal]
  · obtain ⟨hmne, hmall⟩ := hm mds rfl
    obtain ⟨hsne, hsall⟩ := hs sds rfl
    have ht : renderShort none (some mds) (some sds) =
        mds ++ 'm' :: (sds ++ 's' :: []) := by
      simp [renderShort, renderUnit]
    rw [ht]
    have h1 := unitNum_append_ne 'h' 'm' (by decide) (by decide) mds
      (sds ++ 's' :: []) hmall
    have h2 := unitNum_append_eq 'm' (by decide) mds (sds ++ 's' :: []) hmne hmall
    have h3 := unitNum_append_eq 's' (by decide) sds [] hsne hsall
    simp [shorthand?, h1, h2, h3, optVal]
  · obtain ⟨hhne, hhall⟩ := hh hds rfl
    have ht : renderShort (some hds) none none = hds ++ 'h' :: [] := by
      simp [renderShort, renderUnit]
    rw [ht]
    have h1 := unitNum_append_eq 'h' (by decide) hds [] hhne hhall
    simp [shorthand?, h1, unitNum_nil, optVal]
  · obtain ⟨hhne, hhall⟩ := hh hds rfl
    obtain ⟨hsne, hsall⟩ := hs sds rfl
    have ht : renderShort (some hds) none (some sds) =
        hds ++ 'h' :: (sds ++ 's' :: []) := by
      simp [renderShort, renderUnit]
    rw [ht]
    have h1 := unitNum_append_eq 'h' (by decide) hds (sds ++ 's' :: []) hhne hhall
    have h2 := unitNum_append_ne 'm' 's' (by decide) (by decide) sds [] hsall
    have h3 := unitNum_append_eq 's' (by decide) sds [] hsne hsall
    simp [shorthand?, h1, h2, h3, optVal]
  · obtain ⟨hhne, hhall⟩ := hh hds rfl
    obtain ⟨hmne, hmall⟩ := hm mds rfl
    have ht : renderShort (some hds) (some mds) none =
        hds ++ 'h' :: (mds ++ 'm' :: []) := by
      simp [renderShort, renderUnit]
    rw [ht]
    have h1 := unitNum_append_eq 'h' (by decide) hds (mds ++ 'm' :: []) hhne hhall
    have h2 := unitNum_append_eq 'm' (by decide) mds [] hmne hmall
    simp [shorthand?, h1, h2, unitNum_nil, optVal]
  · obtain ⟨hhne, hhall⟩ := hh hds rfl
    obtain ⟨hmne, hmall⟩ := hm mds rfl
    obtain ⟨hsne, hsall⟩ := hs sds rfl
    have ht : renderShort (some hds) (some mds) (some sds) =
        hds ++ 'h' :: (mds ++ 'm' :: (sds ++ 's' :: [])) := by
      simp [renderShort, renderUnit]
    rw [ht]
    have h1 := unitNum_append_eq 'h' (by decide) hds
      (mds ++ 'm' :: (sds ++ 's' :: [])) hhne hhall
    have h2 := unitNum_append_eq 'm' (by decide) mds (sds ++ 's' :: []) hmne hmall
    have h3 := unitNum_append_eq 's' (by decide) sds [] hsne hsall
    simp [shorthand?, h1, h2, h3, optVal]

/-- parse_duration accepts every rendered `NhNmNs` shorthand. -/
lemma parse_duration_shorthand (oh om os : Option (List Char))
    (hh : ∀ ds, oh = some ds → ds ≠ [] ∧ ds.all isDigitChar = true)
    (hm : ∀ ds, om = some ds → ds ≠ [] ∧ ds.all isDigitChar = true)
    (hs : ∀ ds, os = some ds → ds ≠ [] ∧ ds.all isDigitChar = true)
    (hone : oh ≠ none ∨ om ≠ none ∨ os ≠ none) :
    parse_duration (renderShort oh om os) =
      some ((3600 * optVal oh + 60 * optVal om + optVal os : Nat) : Int) := by
  apply parse_duration_of_shorthand
  · exact isEmpty_false_of_ne (renderShort_ne_nil oh om os hone)
  · apply pyStrip_eq_self_of_units
    intro c hc
    rcases mem_renderShort oh om os (fun ds h => (hh ds h).2)
      (fun ds h => (hm ds h).2) (fun ds h => (hs ds h).2) c hc with h | h | h | h
    · exact Or.inl h
    · exact Or.inr (Or.inr (Or.inl h))
    · exact Or.inr (Or.inr (Or.inr (Or.inl h)))
    · exact Or.inr (Or.inr (Or.inr (Or.inr h)))
  · obtain ⟨u, hu, hmem⟩ := renderShort_has_letter oh om os hone
    refine pyIsDigit_false_of_mem _ u hmem ?_
    rcases hu with h | h | h <;> (subst h; decide)
  · exact shorthand?_render oh om os hh hm hs hone

/-- parse_duration accepts `MM:SS` with integer fields. -/
lemma parse_duration_colon2 (a b : List Char)
    (hane : a ≠ []) (ha : a.all isDigitChar = true)
    (hbne : b ≠ []) (hb : b.all isDigitChar = true) :
    parse_duration (a ++ ':' :: b) =
      some (60 * ((digitsToNat a : Nat) : Int) + ((digitsToNat b : Nat) : Int)) := by
  have hne : a ++ ':' :: b ≠ [] := by simp
  have hmem : ∀ c ∈ a ++ ':' :: b,
      isDigitChar c = true ∨ c = ':' ∨ c = 'h' ∨ c = 'm' ∨ c = 's' := by
    intro c hc
    rcases List.mem_append.mp hc with h | h
    · exact Or.inl (List.all_eq_true.mp ha c h)
    · rcases List.mem_cons.mp h with h2 | h2
      · exact Or.inr (Or.inl h2)
      · exact Or.inl (List.all_eq_true.mp hb c h2)
  have hstrip := pyStrip_eq_self_of_units _ hmem
  have hdig : pyIsDigit (a ++ ':' :: b) = false :=
    pyIsDigit_false_of_mem _ ':' (by simp) (by decide)
  have h1 := unitNum_append_ne 'h' ':' (by decide) (by decide) a b ha
  have h2 := unitNum_append_ne 'm' ':' (by decide) (by decide) a b ha
  have h3 := unitNum_append_ne 's' ':' (by decide) (by decide) a b ha
  have hsh : shorthand? (a ++ ':' :: b) = none := by
    simp [shorthand?, h1, h2, h3]
  have hnosepa : ∀ c ∈ a, ¬ c = ':' := by
    intro c hc he
    have := List.all_eq_true.mp ha c hc
    subst he
    simp [isDigitChar] at this
  have hnosepb : ∀ c ∈ b, ¬ c = ':' := by
    intro c hc he
    have := List.all_eq_true.mp hb c hc
    subst he
    simp [isDigitChar] at this
  have hsplit : splitOnChar ':' (a ++ ':' :: b) = [a, b] := by
    rw [splitOnChar_append ':' b a hnosepa, splitOnChar_no_sep ':' b hnosepb]
  have hia := pyInt?_all_digits a hane ha
  have hib := pyInt?_all_digits b hbne hb
  simp [parse_duration, isEmpty_false_of_ne hne, hstrip, hdig, hsh, hsplit, hia, hib]

/-- parse_duration accepts `H:MM:SS` with integer fields. -/
lemma parse_duration_colon3 (a b c : List Char)
    (hane : a ≠ []) (ha : a.all isDigitChar = true)
    (hbne : b ≠ []) (hb : b.all isDigitChar = true)
    (hcne : c ≠ []) (hc : c.all isDigitChar = true) :
    parse_duration (a ++ ':' :: (b ++ ':' :: c)) =
      some (3600 * ((digitsToNat a : Nat) : Int) +
        60 * ((digitsToNat b : Nat) : Int) + ((digitsToNat c : Nat) : Int)) := by
  have hne : a ++ ':' :: (b ++ ':' :: c) ≠ [] := by simp
  have hmem : ∀ x ∈ a ++ ':' :: (b ++ ':' :: c),
      isDigitChar x = true ∨ x = ':' ∨ x = 'h' ∨ x = 'm' ∨ x = 's' := by
    intro x hx
    rcases List.mem_append.mp hx with h | h
    · exact Or.inl (List.all_eq_true.mp ha x h)
    · rcases List.mem_cons.mp h with h2 | h2
      · exact Or.inr (Or.inl h2)
      · rcases List.mem_append.mp h2 with h3 | h3
        · exact Or.inl (List.all_eq_true.mp hb x h3)
        · rcases List.mem_cons.mp h3 with h4 | h4
          · exact Or.inr (Or.inl h4)
          · exact Or.inl (List.all_eq_true.mp hc x h4)
  have hstrip := pyStrip_eq_self_of_units _ hmem
  have hdig : pyIsDigit (a ++ ':' :: (b ++ ':' :: c)) = false :=
    pyIsDigit_false_of_mem _ ':' (by simp) (by decide)
  have h1 := unitNum_append_ne 'h' ':' (by decide) (by decide) a (b ++ ':' :: c) ha
  have h2 := unitNum_append_ne 'm' ':' (by decide) (by decide) a (b ++ ':' :: c) ha
  have h3 := unitNum_append_ne 's' ':' (by decide) (by decide) a (b ++ ':' :: c) ha
  have hsh : shorthand? (a ++ ':' :: (b ++ ':' :: c)) = none := by
    simp [shorthand?, h1, h2, h3]
  have hnosep : ∀ (l : List Char), l.all isDigitChar = true → ∀ x ∈ l, ¬ x = ':' := by
    intro l hl x hx he
    have := List.all_eq_true.mp hl x hx
    subst he
    simp [isDigitChar] at this
  have hsplit : splitOnChar ':' (a ++ ':' :: (b ++ ':' :: c)) = [a, b, c] := by
    rw [splitOnChar_append ':' (b ++ ':' :: c) a (hnosep a ha),
        splitOnChar_append ':' c b (hnosep b hb),
        splitOnChar_no_sep ':' c (hnosep c hc)]
  have hia := pyInt?_all_digits a hane ha
  have hib := pyInt?_all_digits b hbne hb
  have hic := pyInt?_all_digits c hcne hc
  simp [parse_duration, isEmpty_false_of_ne hne, hstrip, hdig, hsh, hsplit,
    hia, hib, hic]

/-- The shorthand value is never negative (it is a cast sum of Nats). -/
lemma shorthand?_nonneg (t : List Char) (v : Int)
    (h : shorthand? t = some v) : 0 ≤ v := by
  simp only [shorthand?] at h
  split at h
  · simp at h
    omega
  · simp at h

/-- A negative parse_duration result requires a minus sign in the input:
the digit and shorthand branches are casts of naturals, and the colon
branches go negative only through a signed Python int field. -/
lemma parse_duration_neg_has_minus (s : List Char) (v : Int)
    (hv : parse_duration s = some v) (hneg : v < 0) : '-' ∈ s := by
  simp only [parse_duration] at hv
  split at hv
  · simp at hv
    omega
  · split at hv
    · simp at hv
      omega
    · split at hv
      · rename_i w hw
        have hnn := shorthand?_nonneg _ _ hw
        simp at hv
        omega
      · split at hv
        · rename_i a b heq
          split at hv
          · rename_i m sec hma hmb
            simp only [Option.some.injEq] at hv
            have hmo : m < 0 ∨ sec < 0 := by omega
            rcases hmo with h | h
            · exact mem_pyStrip s '-' (mem_splitOnChar ':' (pyStrip s) a '-'
                (by rw [heq]; exact List.mem_cons_self _ _)
                (pyInt?_neg_has_minus a m hma h))
            · exact mem_pyStrip s '-' (mem_splitOnChar ':' (pyStrip s) b '-'
                (by rw [heq]; exact List.mem_cons_of_mem a (List.mem_cons_self _ _))
                (pyInt?_neg_has_minus b sec hmb h))
          · simp at hv
        · rename_i a b d heq
          split at hv
          · rename_i hh mm ss hma hmb hmc
            simp only [Option.some.injEq] at hv
            have hmo : hh < 0 ∨ mm < 0 ∨ ss < 0 := by omega
            have hmem1 : a ∈ splitOnChar ':' (pyStrip s) := by
              rw [heq]; exact List.mem_cons_self _ _
            have hmem2 : b ∈ splitOnChar ':' (pyStrip s) := by
              rw [heq]; exact List.mem_cons_of_mem a (List.mem_cons_self _ _)
            have hmem3 : d ∈ splitOnChar ':' (pyStrip s) := by
              rw [heq]
              exact List.mem_cons_of_mem a
                (List.mem_cons_of_mem b (List.mem_cons_self _ _))
            rcases hmo with h | h | h
            · exact mem_pyStrip s '-' (mem_splitOnChar ':' (pyStrip s) a '-'
                hmem1 (pyInt?_neg_has_minus a hh hma h))
            · exact mem_pyStrip s '-' (mem_splitOnChar ':' (pyStrip s) b '-'
                hmem2 (pyInt?_neg_has_minus b mm hmb h))
            · exact mem_pyStrip s '-' (mem_splitOnChar ':' (pyStrip s) d '-'
                hmem3 (pyInt?_neg_has_minus d ss hmc h))
          · simp at hv
        · simp at hv

/-! ## Listing-record lemmas (C4) -/

/-- A segment match yields a non-empty digit run. -/
lemma segDigitsHere_digits (seg s ds : List Char)
    (h : segDigitsHere seg s = some ds) :
    ds ≠ [] ∧ ds.all isDigitChar = true := by
  unfold segDigitsHere at h
  split at h
  · simp at h
  · rename_i rest hstrip
    by_cases hne : (rest.takeWhile isDigitChar).isEmpty = true
    · rw [if_pos hne] at h
      simp at h
    · rw [if_neg hne] at h
      simp only [Option.some.injEq] at h
      subst h
      constructor
      · simpa using hne
      · rw [List.all_eq_true]
        intro c hc
        exact List.mem_takeWhile_imp hc

/-- The scanner yields a non-empty digit run. -/
lemma findSegDigits_digits (seg : List Char) :
    ∀ (s ds : List Char), findSegDigits seg s = some ds →
      ds ≠ [] ∧ ds.all isDigitChar = true := by
  intro s
  induction s with
  | nil => intro ds h; simp [findSegDigits] at h
  | cons x rest ih =>
    intro ds h
    unfold findSegDigits at h
    split at h
    · rename_i ds2 hhere
      simp only [Option.some.injEq] at h
      subst h
      exact segDigitsHere_digits seg (x :: rest) _ hhere
    · exact ih ds h

/-- The DOM strategy's id is a non-empty digit string. -/
lemma parse_video_element_id (el : DomElement) (base : List Char)
    (vi : VideoInfo) (h : parse_video_element el base = some vi) :
    vi.video_id ≠ [] ∧ vi.video_id.all isDigitChar = true := by
  unfold parse_video_element at h
  split at h
  · simp at h
  · rename_i video_link hfind
    split at h
    all_goals dsimp only [] at h
    · cases hsd : findSegDigits videosSeg video_link.href with
      | none => rw [hsd] at h; simp at h
      | some video_id =>
        rw [hsd] at h
        simp only [Option.some.injEq] at h
        have hid : vi.video_id = video_id := by rw [← h]
        rw [hid]
        exact findSegDigits_digits videosSeg _ video_id hsd
    · cases hsd : findSegDigits videosSeg (base ++ video_link.href) with
      | none => rw [hsd] at h; simp at h
      | some video_id =>
        rw [hsd] at h
        simp only [Option.some.injEq] at h
        have hid : vi.video_id = video_id := by rw [← h]
        rw [hid]
        exact findSegDigits_digits videosSeg _ video_id hsd

/-- The JSON strategy's id is exactly the stringified `id` field
(empty when that field is missing or empty). -/
lemma mkVideoInfo_video_id (base : List Char) (vd : VideoData) :
    (mkVideoInfo base vd).video_id = vd.idStr := rfl

/-- The JSON strategy's duration as an expression. -/
lemma mkVideoInfo_duration (base : List Char) (vd : VideoData) :
    (mkVideoInfo base vd).duration =
      (if vd.durationString.isEmpty then 0 else
        match parse_duration vd.durationString with
        | some v => v
        | none => 0) := rfl

/-- The JSON strategy's duration is non-negative unless the duration
string holds a minus sign. -/
lemma mkVideoInfo_duration_nonneg (base : List Char) (vd : VideoData)
    (h : '-' ∉ vd.durationString) : 0 ≤ (mkVideoInfo base vd).duration := by
  rw [mkVideoInfo_duration]
  by_cases he : vd.durationString.isEmpty = true
  · simp [he]
  · simp only [he, if_false]
    cases hpd : parse_duration vd.durationString with
    | none => simp
    | some v =>
      simp only []
      by_contra hlt
      push_neg at hlt
      exact h (parse_duration_neg_has_minus _ v hpd hlt)

/-- Core of the DOM duration argument: the duration expression can be
negative only via a parsed text holding a minus sign. -/
lemma neg_duration_core (el : DomElement) (vi : VideoInfo)
    (hd : vi.duration =
      (match (match el.durationClassText with
              | some t => some (pyStrip t)
              | none => el.textNodes.find? hasColonDigits) with
        | none => (0 : Int)
        | some ds =>
          match parse_duration ds with
          | some v => v
          | none => 0))
    (hneg : vi.duration < 0) :
    ∃ t, '-' ∈ t ∧ (el.durationClassText = some t ∨ t ∈ el.textNodes) := by
  rw [hd] at hneg
  cases hdc : el.durationClassText with
  | some t =>
    rw [hdc] at hneg
    simp only [] at hneg
    cases hpd : parse_duration (pyStrip t) with
    | none => rw [hpd] at hneg; simp at hneg
    | some v =>
      rw [hpd] at hneg
      simp only [] at hneg
      refine ⟨t, ?_, Or.inl rfl⟩
      exact mem_pyStrip t '-' (parse_duration_neg_has_minus _ v hpd hneg)
  | none =>
    rw [hdc] at hneg
    simp only [] at hneg
    cases hf : el.textNodes.find? hasColonDigits with
    | none => rw [hf] at hneg; simp at hneg
    | some t =>
      rw [hf] at hneg
      simp only [] at hneg
      cases hpd : parse_duration t with
      | none => rw [hpd] at hneg; simp at hneg
      | some v =>
        rw [hpd] at hneg
        simp only [] at hneg
        refine ⟨t, ?_, Or.inr (List.mem_of_find?_eq_some hf)⟩
        exact parse_duration_neg_has_minus _ v hpd hneg

/-- The DOM strategy's duration is non-negative unless one of the
queried duration texts holds a minus sign. -/
lemma parse_video_element_neg_duration (el : DomElement) (base : List Char)
    (vi : VideoInfo) (h : parse_video_element el base = some vi)
    (hneg : vi.duration < 0) :
    ∃ t, '-' ∈ t ∧ (el.durationClassText = some t ∨ t ∈ el.textNodes) := by
  unfold parse_video_element at h
  split at h
  · simp at h
  · rename_i video_link hfind
    split at h
    all_goals dsimp only [] at h
    · cases hsd : findSegDigits videosSeg video_link.href with
      | none => rw [hsd] at h; simp at h
      | some video_id =>
        rw [hsd] at h
        simp only [Option.some.injEq] at h
        exact neg_duration_core el vi (by rw [← h]) hneg
    · cases hsd : findSegDigits videosSeg (base ++ video_link.href) with
      | none => rw [hsd] at h; simp at h
      | some video_id =>
        rw [hsd] at h
        simp only [Option.some.injEq] at h
        exact neg_duration_core el vi (by rw [← h]) hneg

/-! ## Paginator lemmas (C1, C3) -/

/-- A page whose every item is filtered or unparsable contributes
nothing: the inner loop completes with an unchanged accumulator. -/
lemma collectGo_all_none {α : Type} (step : α → Option VideoInfo)
    (limit : Option Nat) (videos pv : List VideoInfo) :
    ∀ items : List α, (∀ x ∈ items, step x = none) →
      collectGo step limit videos pv items = Sum.inl pv := by
  intro items
  induction items with
  | nil => intro _; rfl
  | cons x rest ih =>
    intro h
    have hx : step x = none := h x (List.mem_cons_self x rest)
    rw [show collectGo step limit videos pv (x :: rest) =
        collectGo step limit videos pv rest from by simp [collectGo, hx]]
    exact ih (fun y hy => h y (List.mem_cons_of_mem x hy))

/-- The post-filter yield of one search page. -/
def searchKept (base : List Char) (minDur : Int) (ss : List Story) :
    List VideoInfo :=
  (flattenStories ss).filterMap (searchStep base minDur)

/-- Total post-filter items available across a run of search pages. -/
def searchTotal (base : List Char) (minDur : Int)
    (pagesData : List (List Story)) : Nat :=
  (pagesData.map (fun ss => (searchKept base minDur ss).length)).sum

/-- The post-filter yield of one profile page. -/
def profKept (base : List Char) (minDur : Int) (p : ProfilePage) :
    List VideoInfo :=
  p.elements.filterMap (profileStep base minDur)

/-- Total post-filter items available across a run of profile pages. -/
def profileTotal (base : List Char) (minDur : Int)
    (pages : List ProfilePage) : Nat :=
  (pages.map (fun p => (profKept base minDur p).length)).sum

/-- While the limit is strictly out of reach, the inner loop completes
the page and appends exactly the post-filter items, in order. -/
lemma collectGo_inl {α : Type} (step : α → Option VideoInfo) (l : Nat)
    (videos : List VideoInfo) :
    ∀ (items : List α) (pv : List VideoInfo),
      videos.length + pv.length + (items.filterMap step).length < l →
      collectGo step (some l) videos pv items =
        Sum.inl (pv ++ items.filterMap step) := by
  intro items
  induction items with
  | nil => intro pv _; simp [collectGo]
  | cons x rest ih =>
    intro pv h
    cases hs : step x with
    | none =>
      rw [show collectGo step (some l) videos pv (x :: rest) =
          collectGo step (some l) videos pv rest from by simp [collectGo, hs]]
      rw [List.filterMap_cons_none hs] at h ⊢
      exact ih pv h
    | some vi =>
      rw [List.filterMap_cons_some hs] at h ⊢
      have hguard : ¬(l ≠ 0 ∧ l ≤ videos.length + (pv ++ [vi]).length) := by
        simp only [List.length_cons] at h
        simp only [List.length_append, List.length_cons, List.length_nil]
        intro ⟨_, hc⟩
        omega
      rw [show collectGo step (some l) videos pv (x :: rest) =
          collectGo step (some l) videos (pv ++ [vi]) rest from by
        simp only [collectGo, hs]
        rw [if_neg hguard]]
      rw [ih (pv ++ [vi]) (by simp at h ⊢; omega)]
      simp

/-- Once the limit is within reach of the page, the inner loop fires the
early return with a result of length exactly the limit. -/
lemma collectGo_inr {α : Type} (step : α → Option VideoInfo) (l : Nat)
    (videos : List VideoInfo) (hl : l ≠ 0) :
    ∀ (items : List α) (pv : List VideoInfo),
      videos.length + pv.length < l →
      l ≤ videos.length + pv.length + (items.filterMap step).length →
      ∃ final, collectGo step (some l) videos pv items = Sum.inr final ∧
        final.length = l := by
  intro items
  induction items with
  | nil =>
    intro pv h1 h2
    simp at h2
    omega
  | cons x rest ih =>
    intro pv h1 h2
    cases hs : step x with
    | none =>
      rw [show collectGo step (some l) videos pv (x :: rest) =
          collectGo step (some l) videos pv rest from by simp [collectGo, hs]]
      rw [List.filterMap_cons_none hs] at h2
      exact ih pv h1 h2
    | some vi =>
      rw [List.filterMap_cons_some hs] at h2
      by_cases hg : l ≤ videos.length + (pv ++ [vi]).length
      · refine ⟨videos ++ pyTake (pv ++ [vi]) ((l : Int) - (videos.length : Int)),
          ?_, ?_⟩
        · simp only [collectGo, hs]
          rw [if_pos ⟨hl, hg⟩]
        · simp only [List.length_append, List.length_cons, List.length_nil] at hg ⊢
          have hk : (0 : Int) ≤ (l : Int) - (videos.length : Int) := by omega
          rw [show pyTake (pv ++ [vi]) ((l : Int) - (videos.length : Int)) =
              (pv ++ [vi]).take ((l : Int) - (videos.length : Int)).toNat from by
            simp [pyTake, hk]]
          simp only [List.length_take, List.length_append, List.length_cons,
            List.length_nil]
          omega
      · rw [show collectGo step (some l) videos pv (x :: rest) =
            collectGo step (some l) videos (pv ++ [vi]) rest from by
          simp only [collectGo, hs]
          rw [if_neg (by intro ⟨_, hc⟩; exact hg hc)]]
        refine ih (pv ++ [vi]) ?_ ?_
        · simp only [List.length_append, List.length_cons, List.length_nil] at hg ⊢
          omega
        · simp only [List.length_append, List.length_cons, List.length_nil] at h2 ⊢
          omega

/-- With no limit (or limit 0, which Python truthiness disables), the
inner loop always completes the page. -/
lemma collectGo_unlimited {α : Type} (step : α → Option VideoInfo)
    (limit : Option Nat) (videos : List VideoInfo)
    (hlim : limit = none ∨ limit = some 0) :
    ∀ (items : List α) (pv : List VideoInfo),
      collectGo step limit videos pv items =
        Sum.inl (pv ++ items.filterMap step) := by
  intro items
  induction items with
  | nil => intro pv; simp [collectGo]
  | cons x rest ih =>
    intro pv
    cases hs : step x with
    | none =>
      rw [show collectGo step limit videos pv (x :: rest) =
          collectGo step limit videos pv rest from by simp [collectGo, hs]]
      rw [ih pv]
      rw [List.filterMap_cons_none hs]
    | some vi =>
      rw [show collectGo step limit videos pv (x :: rest) =
          collectGo step limit videos (pv ++ [vi]) rest from by
        rcases hlim with h | h <;> subst h <;> simp [collectGo, hs]]
      rw [ih (pv ++ [vi])]
      rw [List.filterMap_cons_some hs]
      simp

/-- Length of the search paginator's output under a positive limit:
exactly the minimum of the limit and what is available. -/
lemma searchLoop_length_some (base : List Char) (minDur : Int) (l : Nat)
    (hl : l ≠ 0) :
    ∀ (pagesData : List (List Story)) (videos : List VideoInfo) (n : Nat),
      (∀ ss ∈ pagesData, ss ≠ []) →
      videos.length < l →
      (searchLoop base minDur (some l) videos n
        (pagesData.map SearchPage.stories)).1.length =
        min l (videos.length + searchTotal base minDur pagesData) := by
  intro pagesData
  induction pagesData with
  | nil =>
    intro videos n _ hlt
    simp [searchLoop, searchTotal]
    omega
  | cons ss rest ih =>
    intro videos n hall hlt
    have hne : ss ≠ [] := hall ss (List.mem_cons_self ss rest)
    rw [show searchLoop base minDur (some l) videos n
        ((ss :: rest).map SearchPage.stories) =
        (match collectGo (searchStep base minDur) (some l) videos []
            (flattenStories ss) with
         | Sum.inr final => (final, n + 1)
         | Sum.inl pv =>
           searchLoop base minDur (some l) (videos ++ pv) (n + 1)
             (rest.map SearchPage.stories))
      from by simp [searchLoop, isEmpty_false_of_ne hne]]
    by_cases hfit : videos.length + (searchKept base minDur ss).length < l
    · rw [collectGo_inl (searchStep base minDur) l videos (flattenStories ss) []
        (by simpa [searchKept] using hfit)]
      simp only [List.nil_append]
      rw [show List.filterMap (searchStep base minDur) (flattenStories ss) =
        searchKept base minDur ss from rfl]
      rw [ih (videos ++ searchKept base minDur ss) (n + 1)
        (fun s hs => hall s (List.mem_cons_of_mem ss hs))
        (by simpa using hfit)]
      simp only [searchTotal, List.map_cons, List.sum_cons, List.length_append]
      congr 1
      omega
    · push_neg at hfit
      obtain ⟨final, heq, hlen⟩ := collectGo_inr (searchStep base minDur) l
        videos hl (flattenStories ss) [] (by simpa using hlt)
        (by simpa [searchKept] using hfit)
      rw [heq]
      simp only []
      rw [hlen]
      have htot : l ≤ videos.length + searchTotal base minDur (ss :: rest) := by
        simp only [searchTotal, List.map_cons, List.sum_cons]
        omega
      omega

/-- Length of the search paginator's output with the limit disabled
(None or 0): everything available. -/
lemma searchLoop_length_unlimited (base : List Char) (minDur : Int)
    (limit : Option Nat) (hlim : limit = none ∨ limit = some 0) :
    ∀ (pagesData : List (List Story)) (videos : List VideoInfo) (n : Nat),
      (∀ ss ∈ pagesData, ss ≠ []) →
      (searchLoop base minDur limit videos n
        (pagesData.map SearchPage.stories)).1.length =
        videos.length + searchTotal base minDur pagesData := by
  intro pagesData
  induction pagesData with
  | nil =>
    intro videos n _
    simp [searchLoop, searchTotal]
  | cons ss rest ih =>
    intro videos n hall
    have hne : ss ≠ [] := hall ss (List.mem_cons_self ss rest)
    rw [show searchLoop base minDur limit videos n
        ((ss :: rest).map SearchPage.stories) =
        (match collectGo (searchStep base minDur) limit videos []
            (flattenStories ss) with
         | Sum.inr final => (final, n + 1)
         | Sum.inl pv =>
           searchLoop base minDur limit (videos ++ pv) (n + 1)
             (rest.map SearchPage.stories))
      from by simp [searchLoop, isEmpty_false_of_ne hne]]
    rw [collectGo_unlimited (searchStep base minDur) limit videos hlim
      (flattenStories ss) []]
    simp only [List.nil_append]
    rw [show List.filterMap (searchStep base minDur) (flattenStories ss) =
      searchKept base minDur ss from rfl]
    rw [ih (videos ++ searchKept base minDur ss) (n + 1)
      (fun s hs => hall s (List.mem_cons_of_mem ss hs))]
    simp only [searchTotal, List.map_cons, List.sum_cons, List.length_append]
    omega

/-- Length of the profile paginator's output under a positive limit,
when every available page keeps at least one item and links onward. -/
lemma profileLoop_length_some (base : List Char) (minDur : Int) (l : Nat)
    (hl : l ≠ 0) :
    ∀ (pages : List ProfilePage) (videos : List VideoInfo) (n : Nat),
      (∀ p ∈ pages, p.elements ≠ [] ∧ profKept base minDur p ≠ [] ∧
        p.hasNext = true) →
      videos.length < l →
      (profileLoop base minDur (some l) videos n pages).1.length =
        min l (videos.length + profileTotal base minDur pages) := by
  intro pages
  induction pages with
  | nil =>
    intro videos n _ hlt
    simp [profileLoop, profileTotal]
    omega
  | cons p rest ih =>
    intro videos n hall hlt
    obtain ⟨hne, hkne, hnext⟩ := hall p (List.mem_cons_self p rest)
    rw [show profileLoop base minDur (some l) videos n (p :: rest) =
        (match collectGo (profileStep base minDur) (some l) videos []
            p.elements with
         | Sum.inr final => (final, n + 1)
         | Sum.inl pv =>
           if pv.isEmpty then (videos, n + 1)
           else
             if p.hasNext then
               profileLoop base minDur (some l) (videos ++ pv) (n + 1) rest
             else (videos ++ pv, n + 1))
      from by simp [profileLoop, isEmpty_false_of_ne hne]]
    by_cases hfit : videos.length + (profKept base minDur p).length < l
    · rw [collectGo_inl (profileStep base minDur) l videos p.elements []
        (by simpa [profKept] using hfit)]
      simp only [List.nil_append]
      rw [show List.filterMap (profileStep base minDur) p.elements =
        profKept base minDur p from rfl]
      rw [show (profKept base minDur p).isEmpty = false from
        isEmpty_false_of_ne hkne]
      rw [if_neg (by decide), if_pos hnext]
      rw [ih (videos ++ profKept base minDur p) (n + 1)
        (fun q hq => hall q (List.mem_cons_of_mem p hq))
        (by simpa using hfit)]
      simp only [profileTotal, List.map_cons, List.sum_cons, List.length_append]
      congr 1
      omega
    · push_neg at hfit
      obtain ⟨final, heq, hlen⟩ := collectGo_inr (profileStep base minDur) l
        videos hl p.elements [] (by simpa using hlt)
        (by simpa [profKept] using hfit)
      rw [heq]
      simp only []
      rw [hlen]
      have htot : l ≤ videos.length + profileTotal base minDur (p :: rest) := by
        simp only [profileTotal, List.map_cons, List.sum_cons]
        omega
      omega

/-! ## Downloader lemmas (C5) -/

/-- Inserting an id puts it in the ledger. -/
lemma mem_insertId_self (ids : List (List Char)) (x : List Char) :
    x ∈ insertId ids x := by
  unfold insertId
  split
  · assumption
  · simp

/-- A ledgered id short-circuits download_video before any network
access. -/
lemma download_video_skip_of_mem (cfg : DlConfig) (env : DlEnv)
    (st : DlState) (vi : VideoInfo) (h : vi.video_id ∈ st.ledger) :
    download_video cfg env st vi true = (.skipped, st, 0) := by
  unfold download_video
  simp [h]

/-- Closing step shared by every non-failed first-call branch: the id is
ledgered, so the second call is a fetch-free skip. -/
lemma c5_finish (cfg : DlConfig) (env : DlEnv) (st1 : DlState)
    (vi : VideoInfo) (o2 : Outcome) (st2 : DlState) (n2 : Nat)
    (hmem : vi.video_id ∈ st1.ledger)
    (h2 : download_video cfg env st1 vi true = (o2, st2, n2))
    (n1 : Nat) (hn1 : n1 ≤ 1) :
    n1 + n2 ≤ 1 ∧ o2 = .skipped ∧ vi.video_id ∈ st1.ledger := by
  rw [download_video_skip_of_mem cfg env st1 vi hmem] at h2
  simp only [Prod.mk.injEq] at h2
  obtain ⟨ho2, _, hn2⟩ := h2
  exact ⟨by omega, ho2.symm, hmem⟩

/-! ## Concrete fixtures for closed evaluations -/

/-- Downloader configuration fixture. -/
def c6cfg : DlConfig := ⟨"http://b".toList, "out".toList⟩

/-- Environment fixture where the video-page fallback never yields a
stream and every direct fetch succeeds: an item fails exactly when it
carries no `download_url`. -/
def c6env : DlEnv := ⟨fun _ => none, fun _ => true, fun _ => true⟩

/-- Batch item 1: direct URL present, resolves and downloads. -/
def c6v1 : VideoInfo :=
  ⟨"1".toList, "a".toList, "u1".toList, "up".toList, ['0'], 0, none, none,
   some "http://s1".toList⟩

/-- Batch item 2: no direct URL and the page yields none, so stream
resolution fails. -/
def c6v2 : VideoInfo :=
  ⟨"2".toList, "b".toList, "u2".toList, "up".toList, ['0'], 0, none, none, none⟩

/-- Batch item 3: direct URL present, resolves and downloads. -/
def c6v3 : VideoInfo :=
  ⟨"3".toList, "c".toList, "u3".toList, "up".toList, ['0'], 0, none, none,
   some "http://s3".toList⟩

/-- C4 counterexample fixture: a JSON video entry with no id field and
the colon-form duration string "0:-5". -/
def c4vd : VideoData :=
  ⟨[], [], some "T".toList, "0:-5".toList, [], none, none⟩

/-- The record the JSON strategy builds from `c4vd`: empty id and
negative duration. -/
def c4vi : VideoInfo :=
  ⟨[], "T".toList, [], "Unknown".toList, ['0'], -5, none, none, none⟩

/-- C4 witness fixture: a DOM card with a `/videos/9` anchor and a
duration-classed text "0:20". -/
def c4el : DomElement :=
  ⟨[⟨"/videos/9".toList, "t".toList⟩], none, none, some "0:20".toList,
   [], none, none⟩

/-- The record the DOM strategy parses from `c4el`. -/
def c4vi2 : VideoInfo :=
  ⟨"9".toList, "t".toList, "/videos/9".toList, "Unknown".toList, ['0'],
   20, none, none, none⟩

/-- C5 fixtures: an environment where every stream fetch fails, and a
record with a direct plain-HTTP stream URL. -/
def c5env : DlEnv := ⟨fun _ => none, fun _ => false, fun _ => false⟩

/-- Record with a direct (non-manifest) stream URL. -/
def c5vi : VideoInfo :=
  ⟨"1".toList, "a".toList, "u".toList, "up".toList, ['0'], 0, none, none,
   some "http://s".toList⟩

/-- C1 fixtures: DOM cards with durations 5s (filtered at minDur 10)
and 20s (kept), and a JSON entry with duration 5s. -/
def c1elLow : DomElement :=
  ⟨[⟨"/videos/8".toList, "t".toList⟩], none, none, some "0:05".toList,
   [], none, none⟩

/-- DOM card whose video lasts 20 seconds. -/
def c1elHigh : DomElement :=
  ⟨[⟨"/videos/9".toList, "t".toList⟩], none, none, some "0:20".toList,
   [], none, none⟩

/-- The record parsed from `c1elHigh`. -/
def c1viHigh : VideoInfo :=
  ⟨"9".toList, "t".toList, "/videos/9".toList, "Unknown".toList, ['0'],
   20, none, none, none⟩

/-- JSON entry whose video lasts 5 seconds. -/
def c1vdLow : VideoData :=
  ⟨"8".toList, [], some "a".toList, "0:05".toList, [], none, none⟩

/-- C3 witness fixture: one story with three 5-second entries. -/
def c3story : Story := ⟨[c1vdLow, c1vdLow, c1vdLow]⟩

/-! ## Claims -/

/-- C9: parse_duration and format_duration round-trip on the
representative values: 45 formats to "45s", 330 to "5:30", 5025 to
"1:23:45"; "5:30" parses to 330, "1:23:45" to 5025, "5m30s" to 330,
"1h30m" to 5400, "90" to 90. -/
theorem c9_duration_round_trip :
    format_duration 45 = "45s".toList ∧
    format_duration 330 = "5:30".toList ∧
    format_duration 5025 = "1:23:45".toList ∧
    parse_duration "5:30".toList = some 330 ∧
    parse_duration "1:23:45".toList = some 5025 ∧
    parse_duration "5m30s".toList = some 330 ∧
    parse_duration "1h30m".toList = some 5400 ∧
    parse_duration "90".toList = some 90 := by
  refine ⟨rfl, rfl, rfl, by decide, by decide, by decide, by decide, by decide⟩

/-- C10: with an unauthenticated client, search_videos raises
SearchError and get_profile_videos raises ProfileError immediately, with
zero HTTP requests issued: the guard is the first check of both entry
points. -/
theorem c10_unauthenticated_guard_first :
    (∀ (base : List Char) (minDur : Int) (limit : Option Nat)
        (pages : List SearchPage),
       search_videos false base minDur limit pages =
         (.error .notAuthenticated, 0)) ∧
    (∀ (base ident : List Char) (nickLookup : Option (List Char))
        (minDur : Int) (limit : Option Nat) (pages : List ProfilePage),
       get_profile_videos false base ident nickLookup minDur limit pages =
         (.error .notAuthenticated, 0)) :=
  ⟨fun _ _ _ _ => rfl, fun _ _ _ _ _ _ => rfl⟩

/-- C6: download_videos iterates the whole batch sequentially and never
aborts on one item's failure: the three counters always sum to the batch
length, and the concrete batch of 3 where item 2 fails stream resolution
still processes item 3 and reports total 3, success 2, failed 1,
skipped 0. -/
theorem c6_batch_never_aborts :
    (∀ (cfg : DlConfig) (env : DlEnv) (st : DlState)
        (videos : List VideoInfo) (skipExisting : Bool),
       ((download_videos cfg env st videos skipExisting).1.total =
          videos.length) ∧
       ((download_videos cfg env st videos skipExisting).1.success +
          (download_videos cfg env st videos skipExisting).1.failed +
          (download_videos cfg env st videos skipExisting).1.skipped =
          (download_videos cfg env st videos skipExisting).1.total)) ∧
    (download_videos c6cfg c6env ⟨[], []⟩ [c6v1, c6v2, c6v3] true).1 =
      ⟨3, 2, 1, 0⟩ := by
  constructor
  · intro cfg env st videos skipExisting
    have h := dlLoop_counts cfg env skipExisting videos st
    rcases hq : dlLoop cfg env skipExisting st videos with ⟨⟨s, f, k⟩, st', n⟩
    rw [hq] at h
    simp at h
    constructor
    · simp [download_videos, hq]
    · simp [download_videos, hq]
      omega
  · rfl

/-- C7: for every login page from which no CSRF token can be extracted
(meta tag, hidden field, then script regex, first match winning),
authenticate signals AuthError and issues zero POSTs: the login form is
never submitted. -/
theorem c7_no_token_no_post :
    ∀ (u p : List Char) (page : LoginPage) (resp : LoginResponse),
      extract_csrf_token page = none →
      (∃ e, (authenticate u p page resp).1 = .error e) ∧
      (authenticate u p page resp).2.2 = 0 := by
  intro u p page resp hx
  by_cases hc : (u.isEmpty || p.isEmpty) = true
  · refine ⟨⟨.missingCreds, ?_⟩, ?_⟩ <;> simp [authenticate, hc]
  · refine ⟨⟨.noToken, ?_⟩, ?_⟩ <;> simp [authenticate, hc, hx]

/-- C1 counterexample: a per-profile run with minDuration 10 fetches
page 1, whose only card (5s) is filtered out, and stops with an empty
result after one request — even though page 2's card (20s) parses and
passes the filter.  The claim said a fully-filtered page must not
terminate pagination. -/
theorem c1_profile_filtered_page_stops_cx :
    get_profile_videos true [] "7".toList none 10 none
      [⟨[c1elLow], true⟩, ⟨[c1elHigh], true⟩] = (.ok [], 1) ∧
    profileStep [] 10 c1elHigh = some c1viHigh ∧
    (10 : Int) ≤ c1viHigh.duration :=
  ⟨rfl, rfl, by decide⟩

/-- C1 (amended): in search-query runs a fetched page whose items are
all removed by the filter does not terminate pagination (the loop
continues to the next page unchanged); in per-profile (DOM) runs a page
with elements but zero post-filter items DOES terminate pagination, in
addition to the zero-raw-elements and absent-next-link stops. -/
theorem c1_filtered_page_pagination :
    (∀ (base : List Char) (minDur : Int) (limit : Option Nat)
        (videos : List VideoInfo) (n : Nat) (ss : List Story)
        (rest : List SearchPage),
       ss ≠ [] →
       (∀ vd ∈ flattenStories ss, searchStep base minDur vd = none) →
       searchLoop base minDur limit videos n (SearchPage.stories ss :: rest) =
         searchLoop base minDur limit videos (n + 1) rest) ∧
    (∀ (base : List Char) (minDur : Int) (limit : Option Nat)
        (videos : List VideoInfo) (n : Nat) (p : ProfilePage)
        (rest : List ProfilePage),
       p.elements ≠ [] →
       (∀ el ∈ p.elements, profileStep base minDur el = none) →
       profileLoop base minDur limit videos n (p :: rest) = (videos, n + 1)) := by
  constructor
  · intro base minDur limit videos n ss rest hne hall
    rw [show searchLoop base minDur limit videos n
        (SearchPage.stories ss :: rest) =
        (match collectGo (searchStep base minDur) limit videos []
            (flattenStories ss) with
         | Sum.inr final => (final, n + 1)
         | Sum.inl pv => searchLoop base minDur limit (videos ++ pv) (n + 1) rest)
      from by simp [searchLoop, isEmpty_false_of_ne hne]]
    rw [collectGo_all_none (searchStep base minDur) limit videos []
      (flattenStories ss) hall]
    simp
  · intro base minDur limit videos n p rest hne hall
    rw [show profileLoop base minDur limit videos n (p :: rest) =
        (match collectGo (profileStep base minDur) limit videos []
            p.elements with
         | Sum.inr final => (final, n + 1)
         | Sum.inl pv =>
           if pv.isEmpty then (videos, n + 1)
           else
             if p.hasNext then
               profileLoop base minDur limit (videos ++ pv) (n + 1) rest
             else (videos ++ pv, n + 1))
      from by simp [profileLoop, isEmpty_false_of_ne hne]]
    rw [collectGo_all_none (profileStep base minDur) limit videos []
      p.elements hall]
    rfl

/-- Witness for C1: a search page whose single 5-second entry is
filtered at minDuration 10 leaves the loop state unchanged, while the
analogous profile page stops its run. -/
theorem c1_filtered_page_pagination_witness :
    searchLoop [] 10 none [] 0 [SearchPage.stories [⟨[c1vdLow]⟩]] =
      searchLoop [] 10 none [] 1 [] ∧
    profileLoop [] 10 none [] 0 [⟨[c1elLow], true⟩] = ([], 1) := by
  constructor
  · exact c1_filtered_page_pagination.1 [] 10 none [] 0 [⟨[c1vdLow]⟩] []
      (by decide) (by decide)
  · exact c1_filtered_page_pagination.2 [] 10 none [] 0 ⟨[c1elLow], true⟩ []
      (by decide) (by decide)

/-- C3 counterexample — two failures of the exact-min(N, total) law:
(i) a profile run with limit 1 over a filtered-out first page returns 0
items although one post-filter item is available (min 1 1 = 1); (ii) a
search run with limit 0 returns 1 item although min 0 1 = 0, because
Python's `if limit` treats 0 as "no limit". -/
theorem c3_limit_mismatch_cx :
    (get_profile_videos true [] "7".toList none 10 (some 1)
        [⟨[c1elLow], true⟩, ⟨[c1elHigh], true⟩] = (.ok [], 1) ∧
     profileTotal [] 10 [⟨[c1elLow], true⟩, ⟨[c1elHigh], true⟩] = 1) ∧
    ((search_videos true [] 0 (some 0)
        [SearchPage.stories [⟨[c1vdLow]⟩]]).1.toOption.getD []).length = 1 :=
  ⟨⟨rfl, rfl⟩, rfl⟩

/-- C3 (amended): for every positive limit N, search_videos returns
exactly min(N, totalAvailableAfterFilter) records, truncating mid-page;
get_profile_videos does the same provided every available page keeps at
least one post-filter item and carries a next-page link (a page failing
that ends its pagination early, and limit 0 or None disables
truncation). -/
theorem c3_limit_exact :
    (∀ (base : List Char) (minDur : Int) (l : Nat)
        (pagesData : List (List Story)),
       l ≠ 0 →
       (∀ ss ∈ pagesData, ss ≠ []) →
       ∃ vids reqs,
         search_videos true base minDur (some l)
           (pagesData.map SearchPage.stories) = (.ok vids, reqs) ∧
         vids.length = min l (searchTotal base minDur pagesData)) ∧
    (∀ (base ident : List Char) (nick : Option (List Char)) (minDur : Int)
        (l : Nat) (pages : List ProfilePage),
       l ≠ 0 →
       extract_user_id ident ≠ none →
       (∀ p ∈ pages, p.elements ≠ [] ∧ profKept base minDur p ≠ [] ∧
         p.hasNext = true) →
       ∃ vids reqs,
         get_profile_videos true base ident nick minDur (some l) pages =
           (.ok vids, reqs) ∧
         vids.length = min l (profileTotal base minDur pages)) := by
  constructor
  · intro base minDur l pagesData hl hall
    rcases hsl : searchLoop base minDur (some l) [] 0
      (pagesData.map SearchPage.stories) with ⟨vids0, n0⟩
    refine ⟨vids0, n0, ?_, ?_⟩
    · simp [search_videos, hsl]
    · have h := searchLoop_length_some base minDur l hl pagesData [] 0 hall
        (by simp only [List.length_nil]; omega)
      rw [hsl] at h
      simpa using h
  · intro base ident nick minDur l pages hl hid hall
    cases hx : extract_user_id ident with
    | none => exact absurd hx hid
    | some uid =>
      rcases hpl : profileLoop base minDur (some l) [] 0 pages with ⟨vids0, n0⟩
      refine ⟨vids0, n0, ?_, ?_⟩
      · simp [get_profile_videos, hx, hpl]
      · have h := profileLoop_length_some base minDur l hl pages [] 0 hall
          (by simp only [List.length_nil]; omega)
        rw [hpl] at h
        simpa using h

/-- Witness for C3: a search run (limit 2, three 5-second entries on one
page) and a profile run (limit 5, one 20-second card) both hit the
exact-min law at concrete inputs. -/
theorem c3_limit_exact_witness :
    (∃ vids reqs,
       search_videos true [] 0 (some 2) ([[c3story]].map SearchPage.stories) =
         (.ok vids, reqs) ∧
       vids.length = min 2 (searchTotal [] 0 [[c3story]])) ∧
    (∃ vids reqs,
       get_profile_videos true [] "7".toList none 0 (some 5)
         [⟨[c1elHigh], true⟩] = (.ok vids, reqs) ∧
       vids.length = min 5 (profileTotal [] 0 [⟨[c1elHigh], true⟩])) := by
  constructor
  · exact c3_limit_exact.1 [] 0 2 [[c3story]] (by decide) (by decide)
  · exact c3_limit_exact.2 [] "7".toList none 0 5 [⟨[c1elHigh], true⟩]
      (by decide) (by decide) (by decide)

/-- C5 counterexample: when the first download of a record fails during
the stream write, its partial file is deleted and nothing is ledgered,
so the second call re-fetches the stream (two fetches in total) and
yields Failed, not Skipped — the state below is unchanged by the first
call, so this single equation describes both calls. -/
theorem c5_failed_retry_cx :
    download_video c6cfg c5env ⟨[], []⟩ c5vi true = (.failed, ⟨[], []⟩, 1) ∧
    Outcome.failed ≠ Outcome.skipped :=
  ⟨rfl, by decide⟩

/-- C5 (amended): provided the first call does not fail, downloading the
same record twice with skipExisting performs at most one stream fetch,
the second call yields Skipped, and the id is in the ledger after the
first call (also in the existing-file skip case); at the batch level a
duplicated id is counted as skipped without a second fetch. -/
theorem c5_ledger_idempotent :
    (∀ (cfg : DlConfig) (env : DlEnv) (st : DlState) (vi : VideoInfo)
        (o1 : Outcome) (st1 : DlState) (n1 : Nat)
        (o2 : Outcome) (st2 : DlState) (n2 : Nat),
       download_video cfg env st vi true = (o1, st1, n1) →
       download_video cfg env st1 vi true = (o2, st2, n2) →
       o1 ≠ .failed →
       n1 + n2 ≤ 1 ∧ o2 = .skipped ∧ vi.video_id ∈ st1.ledger) ∧
    (download_videos c6cfg c6env ⟨[], []⟩ [c6v1, c6v1] true).1 =
      ⟨2, 1, 0, 1⟩ := by
  constructor
  · intro cfg env st vi o1 st1 n1 o2 st2 n2 h1 h2 hno
    by_cases hmem : vi.video_id ∈ st.ledger
    · rw [download_video_skip_of_mem cfg env st vi hmem] at h1
      simp only [Prod.mk.injEq] at h1
      obtain ⟨ho1, hst1, hn1⟩ := h1
      subst hst1
      exact c5_finish cfg env st vi o2 st2 n2 hmem h2 n1 (by omega)
    · by_cases hfile : videoFilepath cfg vi ∈ st.files
      · have hcall : download_video cfg env st vi true =
            (.skipped, { st with ledger := insertId st.ledger vi.video_id }, 0) := by
          unfold download_video
          simp [hmem, hfile]
        rw [hcall] at h1
        simp only [Prod.mk.injEq] at h1
        obtain ⟨ho1, hst1, hn1⟩ := h1
        subst hst1
        exact c5_finish cfg env _ vi o2 st2 n2
          (mem_insertId_self st.ledger vi.video_id) h2 n1 (by omega)
      · cases hd2 : resolveStream env vi with
        | none =>
          have hcall : download_video cfg env st vi true = (.failed, st, 0) := by
            unfold download_video
            simp [hmem, hfile, hd2]
          rw [hcall] at h1
          simp only [Prod.mk.injEq] at h1
          obtain ⟨ho1, _, _⟩ := h1
          exact absurd ho1.symm hno
        | some u0 =>
          have hsucc :
              ∀ ok : Bool, ok = true →
                (if ok = true then
                  ((.success : Outcome),
                   ({ ledger := insertId st.ledger vi.video_id,
                      files := insertId st.files (videoFilepath cfg vi) } : DlState), 1)
                 else ((.failed : Outcome), st, 1)) = (o1, st1, n1) →
                n1 + n2 ≤ 1 ∧ o2 = .skipped ∧ vi.video_id ∈ st1.ledger := by
            intro ok hok hh
            rw [if_pos hok] at hh
            simp only [Prod.mk.injEq] at hh
            obtain ⟨ho1, hst1, hn1⟩ := hh
            subst hst1
            exact c5_finish cfg env _ vi o2 st2 n2
              (mem_insertId_self st.ledger vi.video_id) h2 n1 (by omega)
          have hfailcase :
              ∀ ok : Bool, ok = false →
                (if ok = true then
                  ((.success : Outcome),
                   ({ ledger := insertId st.ledger vi.video_id,
                      files := insertId st.files (videoFilepath cfg vi) } : DlState), 1)
                 else ((.failed : Outcome), st, 1)) = (o1, st1, n1) →
                n1 + n2 ≤ 1 ∧ o2 = .skipped ∧ vi.video_id ∈ st1.ledger := by
            intro ok hok hh
            rw [hok] at hh
            simp at hh
            obtain ⟨ho1, _, _⟩ := hh
            exact absurd ho1.symm hno
          have hcall : download_video cfg env st vi true =
              (if hasSubstr m3u8Chars (absUrl cfg u0) then
                 (if env.ffmpegOk (absUrl cfg u0) then
                   ((.success : Outcome),
                    ({ ledger := insertId st.ledger vi.video_id,
                       files := insertId st.files (videoFilepath cfg vi) } : DlState), 1)
                  else ((.failed : Outcome), st, 1))
               else
                 (if env.httpOk (absUrl cfg u0) then
                   ((.success : Outcome),
                    ({ ledger := insertId st.ledger vi.video_id,
                       files := insertId st.files (videoFilepath cfg vi) } : DlState), 1)
                  else ((.failed : Outcome), st, 1))) := by
            unfold download_video
            simp [hmem, hfile, hd2]
          rw [hcall] at h1
          by_cases hm3 : hasSubstr m3u8Chars (absUrl cfg u0) = true
          · rw [if_pos hm3] at h1
            rcases hff : env.ffmpegOk (absUrl cfg u0) with _ | _
            · exact hfailcase _ hff h1
            · exact hsucc _ hff h1
          · rw [if_neg hm3] at h1
            rcases hht : env.httpOk (absUrl cfg u0) with _ | _
            · exact hfailcase _ hht h1
            · exact hsucc _ hht h1
  · rfl

/-- Witness for C5: a concrete first call that succeeds (one stream
fetch), followed by a second call that is skipped without a fetch. -/
theorem c5_ledger_idempotent_witness :
    1 + 0 ≤ 1 ∧ Outcome.skipped = Outcome.skipped ∧
    c6v1.video_id ∈
      (DlState.mk ["1".toList] ["out/up/a_1.mp4".toList]).ledger := by
  have h := c5_ledger_idempotent.1 c6cfg c6env ⟨[], []⟩ c6v1
    .success ⟨["1".toList], ["out/up/a_1.mp4".toList]⟩ 1 .skipped
    ⟨["1".toList], ["out/up/a_1.mp4".toList]⟩ 0 (by decide) (by decide)
    (by decide)
  exact ⟨h.1, rfl, h.2.2⟩

/-- C4 counterexample: a search page whose JSON entry lacks an id and
carries the duration string "0:-5" produces a record with an empty id
and a negative duration, refuting the claimed invariant. -/
theorem c4_empty_id_negative_duration_cx :
    (search_videos true [] 0 none [SearchPage.stories [⟨[c4vd]⟩]]).1 =
      .ok [c4vi] ∧
    c4vi.video_id = [] ∧ c4vi.duration < 0 :=
  ⟨rfl, rfl, by decide⟩

/-- C4 (amended): every DOM-strategy record has a non-empty all-digit
id; the JSON-strategy id is exactly the stringified entry id (so it can
be empty); durations are non-negative unless the parsed duration text
holds a minus sign. -/
theorem c4_record_invariants :
    (∀ (el : DomElement) (base : List Char) (vi : VideoInfo),
       parse_video_element el base = some vi →
       vi.video_id ≠ [] ∧ vi.video_id.all isDigitChar = true) ∧
    (∀ (base : List Char) (vd : VideoData),
       (mkVideoInfo base vd).video_id = vd.idStr) ∧
    (∀ (base : List Char) (vd : VideoData), '-' ∉ vd.durationString →
       0 ≤ (mkVideoInfo base vd).duration) ∧
    (∀ (el : DomElement) (base : List Char) (vi : VideoInfo),
       parse_video_element el base = some vi → vi.duration < 0 →
       ∃ t, '-' ∈ t ∧ (el.durationClassText = some t ∨ t ∈ el.textNodes)) :=
  ⟨parse_video_element_id, mkVideoInfo_video_id, mkVideoInfo_duration_nonneg,
   parse_video_element_neg_duration⟩

/-- Witness for C4: the DOM card `c4el` parses to `c4vi2`, whose id is
the non-empty digit string "9", and a minus-free JSON duration string
gives a non-negative duration. -/
theorem c4_record_invariants_witness :
    c4vi2.video_id ≠ [] ∧ c4vi2.video_id.all isDigitChar = true ∧
    0 ≤ (mkVideoInfo [] ⟨['7'], [], none, "5:00".toList, [], none, none⟩).duration := by
  have h1 := c4_record_invariants.1 c4el [] c4vi2 (by decide)
  have h3 := c4_record_invariants.2.2.1 []
    ⟨['7'], [], none, "5:00".toList, [], none, none⟩ (by decide)
  exact ⟨h1.1, h1.2, h3⟩

/-- C2 counterexample: the claim says parse_duration signals FormatError
for the empty string, but the code returns 0 for it without raising. -/
theorem c2_empty_returns_zero_cx : parse_duration [] = some 0 := rfl

/-- C2 (amended): parse_duration accepts plain integer seconds,
H:MM:SS / MM:SS, and NhNmNs shorthand (each unit optional, at least one
required), signals ValueError for "abc", "12:ab" and "1d2h" — but the
empty string returns 0 instead of raising. -/
theorem c2_parse_duration_formats :
    (∀ (s : List Char) (v : Int), SpecAcceptedDuration s v →
       parse_duration s = some v) ∧
    parse_duration [] = some 0 ∧
    parse_duration "abc".toList = none ∧
    parse_duration "12:ab".toList = none ∧
    parse_duration "1d2h".toList = none := by
  refine ⟨?_, rfl, by decide, by decide, by decide⟩
  intro s v h
  cases h with
  | digits s hne hall => exact parse_duration_digits s hne hall
  | colon2 a b hane ha hbne hb => exact parse_duration_colon2 a b hane ha hbne hb
  | colon3 a b c hane ha hbne hb hcne hc =>
    exact parse_duration_colon3 a b c hane ha hbne hb hcne hc
  | shorthand oh om os hh hm hs hone =>
    exact parse_duration_shorthand oh om os hh hm hs hone

/-- Witness for C2: the accepted-format implication applied to the plain
digit string "90" and the shorthand "5m30s". -/
theorem c2_parse_duration_formats_witness :
    parse_duration ['9', '0'] = some 90 ∧
    parse_duration ['5', 'm', '3', '0', 's'] = some 330 := by
  constructor
  · have h := c2_parse_duration_formats.1 ['9', '0']
      ((digitsToNat ['9', '0'] : Nat) : Int)
      (SpecAcceptedDuration.digits ['9', '0'] (by simp) (by decide))
    rw [show ((digitsToNat ['9', '0'] : Nat) : Int) = 90 from by decide] at h
    exact h
  · have h := c2_parse_duration_formats.1
      (renderShort none (some ['5']) (some ['3', '0']))
      ((3600 * optVal none + 60 * optVal (some ['5']) +
        optVal (some ['3', '0']) : Nat) : Int)
      (SpecAcceptedDuration.shorthand none (some ['5']) (some ['3', '0'])
        (by intro ds h; cases h)
        (by intro ds h; cases h; exact ⟨by simp, by decide⟩)
        (by intro ds h; cases h; exact ⟨by simp, by decide⟩)
        (by simp))
    rw [show renderShort none (some ['5']) (some ['3', '0']) =
      ['5', 'm', '3', '0', 's'] from by decide] at h
    rw [show ((3600 * optVal none + 60 * optVal (some ['5']) +
      optVal (some ['3', '0']) : Nat) : Int) = 330 from by decide] at h
    exact h

/-- Witness for C7: the token-free login page with credentials present
hits the guard after the single page GET and before any POST. -/
theorem c7_no_token_no_post_witness :
    (∃ e, (authenticate "u".toList "p".toList ⟨none, none, none⟩
             ⟨200, [], none⟩).1 = .error e) ∧
    (authenticate "u".toList "p".toList ⟨none, none, none⟩
       ⟨200, [], none⟩).2.2 = 0 :=
  c7_no_token_no_post "u".toList "p".toList ⟨none, none, none⟩ ⟨200, [], none⟩ rfl

/-- Every character the sanitizer can output (before the placeholder
fallback) is an underscore or a mapped-and-kept input character, hence
never one of the invalid set. -/
lemma sanitize_chars_valid (s : List Char) (maxLength : Nat) :
    ∀ c ∈ sanitize_filename s maxLength, isInvalidFsChar c = false := by
  intro c hc
  unfold sanitize_filename at hc
  set s1 := s.map (fun c => if isInvalidFsChar c then '_' else c) with hs1
  set s2 := s1.filter (fun c => 32 ≤ c.toNat) with hs2
  set s3 := collapseGo false s2 with hs3
  set s4 := rstripDotSpace (s3.dropWhile isDotSpace) with hs4
  have base : ∀ d ∈ s4, isInvalidFsChar d = false := by
    intro d hd
    have hd3 : d ∈ s3 := (List.dropWhile_sublist isDotSpace).subset (mem_rstripDotSpace _ d hd)
    rcases mem_collapseGo false s2 d hd3 with h | h
    · rw [h]; rfl
    · have hd1 : d ∈ s1 := List.mem_of_mem_filter h
      rcases List.mem_map.mp hd1 with ⟨a, _, ha⟩
      by_cases hia : isInvalidFsChar a = true
      · simp [hia] at ha; rw [← ha]; rfl
      · simp [hia] at ha; rw [← ha]; simpa using hia
  by_cases hlen : s4.length > maxLength
  · simp only [hlen, if_pos] at hc
    split at hc
    · have hun : "unnamed".toList = ['u', 'n', 'n', 'a', 'm', 'e', 'd'] := rfl
      rw [hun] at hc
      fin_cases hc <;> rfl
    · exact base c (List.take_subset maxLength s4 (mem_rstripDotSpace _ c hc))
  · simp only [hlen, if_neg, if_false] at hc
    split at hc
    · have hun : "unnamed".toList = ['u', 'n', 'n', 'a', 'm', 'e', 'd'] := rfl
      rw [hun] at hc
      fin_cases hc <;> rfl
    · exact base c hc

/-- C8: for every input, sanitize_filename (at the default maximum 200)
contains no character of the invalid set, has no leading or trailing dot
or space, has length at most 200, and is never empty; the degenerate
input "...." yields the fixed placeholder "unnamed". -/
theorem c8_sanitize_filename_safe :
    (∀ s : List Char,
       (∀ c ∈ sanitize_filename s 200, isInvalidFsChar c = false) ∧
       (∀ c, (sanitize_filename s 200).head? = some c → isDotSpace c = false) ∧
       (∀ c, (sanitize_filename s 200).getLast? = some c → isDotSpace c = false) ∧
       (sanitize_filename s 200).length ≤ 200 ∧
       sanitize_filename s 200 ≠ []) ∧
    sanitize_filename "....".toList 200 = "unnamed".toList := by
  constructor
  · intro s
    refine ⟨sanitize_chars_valid s 200, ?_, ?_, ?_, ?_⟩
    · intro c hc
      unfold sanitize_filename at hc
      set s3 := collapseGo false
        ((s.map (fun c => if isInvalidFsChar c then '_' else c)).filter
          (fun c => 32 ≤ c.toNat)) with hs3
      set s4 := rstripDotSpace (s3.dropWhile isDotSpace) with hs4
      by_cases hlen : s4.length > 200
      · simp only [hlen, if_pos] at hc
        split at hc
        · simp at hc; rw [← hc]; rfl
        · have h1 := head_rstripDotSpace _ c hc
          have h2 := head_take s4 200 c h1
          have h3 := head_rstripDotSpace _ c h2
          exact head_dropWhile_not isDotSpace _ c h3
      · simp only [hlen, if_neg, if_false] at hc
        split at hc
        · simp at hc; rw [← hc]; rfl
        · have h3 := head_rstripDotSpace _ c hc
          exact head_dropWhile_not isDotSpace _ c h3
    · intro c hc
      unfold sanitize_filename at hc
      set s3 := collapseGo false
        ((s.map (fun c => if isInvalidFsChar c then '_' else c)).filter
          (fun c => 32 ≤ c.toNat)) with hs3
      set s4 := rstripDotSpace (s3.dropWhile isDotSpace) with hs4
      by_cases hlen : s4.length > 200
      · simp only [hlen, if_pos] at hc
        split at hc
        · simp at hc; rw [← hc]; rfl
        · exact last_rstripDotSpace _ c hc
      · simp only [hlen, if_neg, if_false] at hc
        split at hc
        · simp at hc; rw [← hc]; rfl
        · exact last_rstripDotSpace _ c hc
    · by_contra hbig
      simp only [sanitize_filename] at hbig
      split at hbig
      · split at hbig
        · exact hbig (by decide)
        · exact hbig (le_trans (length_rstripDotSpace _) (by simp))
      · rename_i hlen
        split at hbig
        · exact hbig (by decide)
        · simp at hlen
          exact hbig (by omega)
    · intro hemp
      simp only [sanitize_filename] at hemp
      split at hemp <;> split at hemp
      · exact absurd hemp (by decide)
      · rename_i hne
        exact hne (by simp [hemp])
      · exact absurd hemp (by decide)
      · rename_i hne
        exact hne (by simp [hemp])
  · rfl

end FetScraper
